import Mathlib

/-!
Shallow embedding of the Omakase card-game engine core (the recursive move
solver, move enumeration, scoring and the combinatorial probabilistic scorer)
together with proofs checking the natural-language specification against it.

Conventions of the embedding:
* Python `list` / `deque` become `List`; Python `set` becomes a `List` that is
  deduplicated where the code relies on set semantics (set-equality statements
  go through `List.toFinset`).
* Python ints are `Nat`/`Int`; Python floats and `Fraction`s are `Rat` (the
  code only performs field operations on them, apart from `math.sqrt`, which is
  passed in as an abstract function, see `SolverEnv`).
* Exceptions (`ValueError`, `AssertionError`) become `Except Err`.
-/

namespace Omakase

/-- Error outcomes of the embedded code: Python `ValueError`, a generic failed
`assert`, the specific recursion-depth `assert` of `_solve_recursive`, and
exhaustion of the structural fuel of the embedded recursion (an artifact of
the embedding: the Python recursion has no fuel). -/
inductive Err where
  | valueError
  | assertionError
  | depthAssert
  | fuelOut
deriving DecidableEq, Repr

/-- The `Card` enumeration of `cards.py`, including the `Unknown` sentinel. -/
inductive Card where
  | Sashimi
  | Tempura
  | Dumpling
  | SquidNigiri
  | SalmonNigiri
  | EggNigiri
  | Wasabi
  | Maki3
  | Maki2
  | Maki1
  | Pudding
  | Chopsticks
  | Unknown
deriving DecidableEq, Repr

namespace Card

/-- The `IntEnum` value of each card in `cards.py` (used by `sorted`). -/
def val : Card → Nat
  | .Sashimi => 1
  | .Tempura => 2
  | .Dumpling => 3
  | .SquidNigiri => 4
  | .SalmonNigiri => 5
  | .EggNigiri => 6
  | .Wasabi => 7
  | .Maki3 => 8
  | .Maki2 => 9
  | .Maki1 => 10
  | .Pudding => 11
  | .Chopsticks => 12
  | .Unknown => 99

/-- `Card.is_maki`. -/
def is_maki (c : Card) : Bool :=
  c = Card.Maki1 ∨ c = Card.Maki2 ∨ c = Card.Maki3

/-- `Card.is_nigiri`. -/
def is_nigiri (c : Card) : Bool :=
  c = Card.EggNigiri ∨ c = Card.SalmonNigiri ∨ c = Card.SquidNigiri

/-- `Card.num_maki`. -/
def num_maki : Card → Nat
  | .Maki1 => 1
  | .Maki2 => 2
  | .Maki3 => 3
  | _ => 0

/-- `Card.nigiri_base_points` (`none` for non-nigiri). -/
def nigiri_base_points : Card → Option Nat
  | .EggNigiri => some 1
  | .SalmonNigiri => some 2
  | .SquidNigiri => some 3
  | _ => none

end Card

/-- A `Pick` as stored: one card `a` and an optional second card `b`
(`cards.py`, class `Pick`, slots `_a`/`_b`).  Built through `mkPick`, which
performs the constructor's canonicalisation; `Pick.mk` itself corresponds to
directly setting the slots. -/
structure Pick where
  a : Card
  b : Option Card
deriving DecidableEq, Repr

/-- `Pick._order_may_matter`: two distinct cards where both are nigiri, or one
is Wasabi and the other a nigiri. -/
def orderMayMatter (a : Card) (b : Option Card) : Bool :=
  match b with
  | none => false
  | some bb =>
    if a = bb then false
    else (a.is_nigiri && bb.is_nigiri) || (a = Card.Wasabi && bb.is_nigiri)
      || (bb = Card.Wasabi && a.is_nigiri)

/-- `Pick.__init__`: when a second card is present and order can never matter,
the pair is stored sorted ascending by the card's `IntEnum` value. -/
def mkPick (a : Card) (b : Option Card := none) : Pick :=
  match b with
  | none => ⟨a, none⟩
  | some bb =>
    if orderMayMatter a (some bb) then ⟨a, some bb⟩
    else if bb.val < a.val then ⟨bb, some a⟩ else ⟨a, some bb⟩

namespace Pick

/-- `Pick.__len__`. -/
def len (p : Pick) : Nat :=
  match p.b with
  | none => 1
  | some _ => 2

/-- `Pick.as_tuple`, as a list. -/
def toList (p : Pick) : List Card :=
  match p.b with
  | none => [p.a]
  | some bb => [p.a, bb]

/-- The multiset of cards of a Pick (order forgotten). -/
def cards (p : Pick) : Multiset Card := (p.toList : Multiset Card)

end Pick

/-- The per-player `Plate` aggregate of `cards.py`. -/
structure Plate where
  score : Nat := 0
  maki : Nat := 0
  chopsticks : Nat := 0
  unused_wasabi : Nat := 0
  unscored_sashimi : Nat := 0
  unscored_tempura : Bool := false
  dumplings : Nat := 0
deriving DecidableEq, Repr

namespace Plate

/-- `Plate.add`: fold one card into the plate.  Raises `ValueError` on a card
that is not one of the twelve concrete kinds (i.e. on `Unknown`). -/
def add (p : Plate) (card : Card) : Except Err Plate :=
  if card = Card.Chopsticks then
    .ok { p with chopsticks := p.chopsticks + 1 }
  else if card = Card.Wasabi then
    .ok { p with unused_wasabi := p.unused_wasabi + 1 }
  else if card = Card.Sashimi then
    if p.unscored_sashimi = 2 then
      .ok { p with score := p.score + 10, unscored_sashimi := 0 }
    else
      .ok { p with unscored_sashimi := p.unscored_sashimi + 1 }
  else if card = Card.Tempura then
    if p.unscored_tempura then
      .ok { p with score := p.score + 5, unscored_tempura := false }
    else
      .ok { p with unscored_tempura := true }
  else if card = Card.Dumpling then
    if p.dumplings > 5 then
      .error .assertionError
    else if p.dumplings ≥ 5 then
      .ok p
    else
      .ok { p with score := p.score + 1 + p.dumplings, dumplings := p.dumplings + 1 }
  else if card.is_nigiri then
    match card.nigiri_base_points with
    | none => .error .assertionError
    | some points =>
      if p.unused_wasabi ≠ 0 then
        .ok { p with unused_wasabi := p.unused_wasabi - 1, score := p.score + points * 3 }
      else
        .ok { p with score := p.score + points }
  else if card.is_maki then
    if card.num_maki = 0 then
      .error .assertionError
    else
      .ok { p with maki := p.maki + card.num_maki }
  else if card = Card.Pudding then
    .ok p
  else
    .error .valueError

/-- `Plate.play`: spend a chopstick for a 2-card pick (raising `ValueError`
when none is available), then fold every card of the pick into the plate. -/
def play (p : Plate) (pick : Pick) : Except Err Plate := do
  let p ←
    if pick.len = 2 then
      if p.chopsticks = 0 then
        .error .valueError
      else
        pure { p with chopsticks := p.chopsticks - 1 }
    else
      pure p
  pick.toList.foldlM Plate.add p

end Plate

/-! ## Move enumeration (`utils.py`)

Python `set`s of cards / picks are embedded as `List`s; where the code relies
on cardinality of a set the list is deduplicated (`List.dedup`), and
set-equality statements go through `List.toFinset`. -/

/-- `_prune_likely_bad_picks`: discard a lower-value nigiri/maki variant when a
strictly higher one is present.  The Python function mutates a set in place;
here it maps the (deduplicated) list of options to the pruned list. -/
def pruneLikelyBadPicks (options : List Card) : List Card :=
  let options :=
    if Card.SquidNigiri ∈ options then
      (options.filter (· ≠ Card.SalmonNigiri)).filter (· ≠ Card.EggNigiri)
    else if Card.SalmonNigiri ∈ options then
      options.filter (· ≠ Card.EggNigiri)
    else options
  if Card.Maki3 ∈ options then
    (options.filter (· ≠ Card.Maki2)).filter (· ≠ Card.Maki1)
  else if Card.Maki2 ∈ options then
    options.filter (· ≠ Card.Maki1)
  else options

/-- `itertools.combinations(l, 2)`: all position pairs `(l i, l j)` with
`i < j`, in the iterator's order. -/
def pairCombinations : List Card → List (Card × Card)
  | [] => []
  | c :: rest => (rest.map fun d => (c, d)) ++ pairCombinations rest

/-- Python `sorted((a, b))` on two cards (ascending by `IntEnum` value). -/
def sortedPair (a b : Card) : Card × Card :=
  if b.val < a.val then (b, a) else (a, b)

/-- The body of the `swapped_choices` loop of `get_chopstick_picks` for a
single 2-card pick: the swapped-order variants that must additionally be
enumerated (empty when none). -/
def swappedOf (num_unused_wasabi : Option Nat) (p : Pick) : List Pick :=
  match p.b with
  | none => []
  | some card_b =>
    let card_a := p.a
    if card_a = card_b then []
    else
      (if (num_unused_wasabi = none ∨ num_unused_wasabi = some 1)
          ∧ (card_a.is_nigiri ∧ card_b.is_nigiri ∧ card_a ≠ card_b) then
        [mkPick card_b (some card_a)]
      else []) ++
      (if (num_unused_wasabi = none ∨ num_unused_wasabi = some 0)
          ∧ ((card_a = Card.Wasabi ∧ card_b.is_nigiri)
            ∨ (card_a.is_nigiri ∧ card_b = Card.Wasabi)) then
        [mkPick card_b (some card_a)]
      else [])

/-- `get_chopstick_picks(hand, num_unused_wasabi, prune_likely_bad_picks)`. -/
def get_chopstick_picks (hand : List Card) (num_unused_wasabi : Option Nat)
    (prune_likely_bad_picks : Bool := false) : List Pick :=
  let num_chopsticks_in_hand := hand.count Card.Chopsticks
  let card_options := hand.filter (· ≠ Card.Chopsticks)
  if card_options.length < 2 then
    if num_chopsticks_in_hand ≥ 2 then
      [mkPick Card.Chopsticks (some Card.Chopsticks)]
    else []
  else
    let choices : List Pick :=
      if ¬ prune_likely_bad_picks then
        ((pairCombinations card_options).map fun cd => mkPick cd.1 (some cd.2)).dedup
      else
        let first_card_options := pruneLikelyBadPicks card_options.dedup
        (first_card_options.flatMap fun first_card =>
          (pruneLikelyBadPicks ((card_options.erase first_card).dedup)).map
            fun second_card =>
              let s := sortedPair first_card second_card
              mkPick s.1 (some s.2)).dedup
    let swapped_choices : List Pick :=
      if num_unused_wasabi = none ∨ num_unused_wasabi.getD 0 ≤ 1 then
        choices.flatMap (swappedOf num_unused_wasabi)
      else []
    let choices := (choices ++ swapped_choices).dedup
    if num_chopsticks_in_hand ≥ 2 then
      (choices ++ [mkPick Card.Chopsticks (some Card.Chopsticks)]).dedup
    else choices

/-- `get_all_picks(hand, plate, prune_likely_bad_picks)`; the final
`assert options` becomes an error on an empty result. -/
def get_all_picks (hand : List Card) (plate : Plate)
    (prune_likely_bad_picks : Bool := false) : Except Err (List Pick) :=
  let can_use_chopsticks := plate.chopsticks ≠ 0 ∧ hand.length > 1
  let options : List Pick :=
    if prune_likely_bad_picks then
      if can_use_chopsticks ∧ hand.length ≤ 1 + plate.chopsticks
          ∧ Card.Chopsticks ∉ hand then
        []
      else
        let options := hand.dedup
        let options :=
          if hand.length ≤ 1 + plate.chopsticks ∧ options.length > 1 then
            options.filter (· ≠ Card.Chopsticks)
          else options
        (pruneLikelyBadPicks options).map fun c => mkPick c none
    else
      (hand.map fun c => mkPick c none).dedup
  let options :=
    if can_use_chopsticks then
      (options ++ get_chopstick_picks hand (some plate.unused_wasabi)
        prune_likely_bad_picks).dedup
    else options.dedup
  if options = [] then .error .assertionError else .ok options

/-! ## Scoring (`scoring.py`) -/

/-- Insert into a list sorted by `le`. -/
def insertSorted {α} (le : α → α → Bool) (a : α) : List α → List α
  | [] => [a]
  | b :: bs => if le a b then a :: b :: bs else b :: insertSorted le a bs

/-- Executable insertion sort; embeds Python `sorted` (the code only sorts
lists of numbers, where stability is irrelevant). -/
def insertionSort {α} (le : α → α → Bool) : List α → List α
  | [] => []
  | a :: as => insertSorted le a (insertionSort le as)

/-- `_count_maki_plates`: `(max count, points for most, second count, points
for second most)`; integer points use Python's floor division `//`. -/
def count_maki_plates (nums_maki : List Nat) : Except Err (Nat × Nat × Nat × Nat) :=
  if nums_maki.length < 2 then .error .assertionError else
  match insertionSort (fun a b => b ≤ a) nums_maki with
  | max_maki_count :: second_maki_count :: rest =>
    if max_maki_count = 0 then .ok (0, 0, 0, 0)
    else
      let sortedNums := max_maki_count :: second_maki_count :: rest
      let num_players_max_maki_count := sortedNums.count max_maki_count
      if num_players_max_maki_count = 0 then .error .assertionError
      else if (decide (num_players_max_maki_count > 1))
          ≠ (decide (max_maki_count = second_maki_count)) then .error .assertionError
      else
        let points_most_maki := 6 / num_players_max_maki_count
        if num_players_max_maki_count > 1 ∨ second_maki_count = 0 then
          .ok (max_maki_count, points_most_maki, second_maki_count, 0)
        else
          let num_players_second_maki_count := sortedNums.count second_maki_count
          if num_players_second_maki_count = 0 then .error .assertionError
          else
            .ok (max_maki_count, points_most_maki, second_maki_count,
              3 / num_players_second_maki_count)
  | _ => .error .assertionError

/-- `score_maki`. -/
def score_maki (nums_maki : List Nat) : Except Err (List Nat) := do
  let (max_maki_count, points_most_maki, second_maki_count, points_second_most_maki) ←
    count_maki_plates nums_maki
  .ok (nums_maki.map fun num_maki =>
    if num_maki = max_maki_count then points_most_maki
    else if num_maki = second_maki_count then points_second_most_maki
    else 0)

/-- `score_plates` on the `Plate` branch (the solver passes plates). -/
def score_plates (plates : List Plate) : Except Err (List Nat) :=
  if plates = [] then .ok [] else do
    let maki_scores ← score_maki (plates.map (·.maki))
    .ok (List.zipWith (fun (pl : Plate) ms => pl.score + ms) plates maki_scores)

/-- `_count_pudding`: `(max count, points for most, min count, positive
magnitude of the least-pudding penalty)`.  The point splits use Python's true
division `/`, embedded as exact rational division. -/
def count_pudding (nums_pudding : List Nat) : Except Err (Nat × Rat × Nat × Rat) :=
  let num_players := nums_pudding.length
  if num_players ≤ 1 then .error .assertionError else
  let sortedNums := insertionSort (· ≤ ·) nums_pudding
  let max_pudding_count := sortedNums.foldl Nat.max 0
  let min_pudding_count := sortedNums.foldl Nat.min (sortedNums.headD 0)
  if max_pudding_count = min_pudding_count then
    let points_most_pudding : Rat :=
      if max_pudding_count > 0 ∧ num_players = 2 then 3 else 0
    .ok (max_pudding_count, points_most_pudding, min_pudding_count, 0)
  else
    let num_players_max_count := (sortedNums.filter (· = max_pudding_count)).length
    let num_players_min_count := (sortedNums.filter (· = min_pudding_count)).length
    let points_most_pudding : Rat := 6 / num_players_max_count
    let neg_points_least_pudding : Rat :=
      if num_players = 2 then 0 else 6 / num_players_min_count
    .ok (max_pudding_count, points_most_pudding, min_pudding_count,
      neg_points_least_pudding)

/-- `score_puddings`. -/
def score_puddings (num_puddings : List Nat) : Except Err (List Rat) := do
  let (max_pudding_count, points_most_pudding, min_pudding_count,
    neg_points_least_pudding) ← count_pudding num_puddings
  .ok (num_puddings.map fun num_pudding =>
    if num_pudding = max_pudding_count then points_most_pudding
    else if num_pudding = min_pudding_count then -neg_points_least_pudding
    else 0)

/-- The `ScoreAndPudding` named tuple (`total_score` is rational because the
solver feeds it probabilistically adjusted scores). -/
structure ScoreAndPudding where
  total_score : Rat
  num_pudding : Nat
deriving DecidableEq, Repr

/-- One iteration of the `for rank in range(len(players))` loop of
`rank_players`, over the state `(unscored_players, player_ranks)`; both the
Python dicts preserve insertion order, embedded as association lists. -/
def rankStep (st : List (Nat × ScoreAndPudding) × List (Nat × Nat)) (rank : Nat) :
    Except Err (List (Nat × ScoreAndPudding) × List (Nat × Nat)) :=
  let (unscored, ranks) := st
  if ranks.length > rank then .ok st
  else
    match unscored with
    | [] => .error .assertionError
    | u :: us =>
      let max_score := (us.map (·.2.total_score)).foldl max u.2.total_score
      let players_at_max_score := (u :: us).filter fun p =>
        p.2.total_score = max_score
      match players_at_max_score with
      | [] => .error .assertionError
      | [p] =>
        .ok ((u :: us).filter (fun q => q.1 ≠ p.1), ranks ++ [(p.1, rank)])
      | p :: ps =>
        let max_puddings := (ps.map (·.2.num_pudding)).foldl Nat.max p.2.num_pudding
        let winners := (p :: ps).filter fun q => q.2.num_pudding = max_puddings
        if winners = [] then .error .assertionError
        else
          .ok ((u :: us).filter (fun q => (winners.map (·.1)).all (q.1 ≠ ·)),
            ranks ++ winners.map fun q => (q.1, rank))

/-- `rank_players`: 1-indexed competition ranks from `(total_score,
num_pudding)`, ties sharing a rank and consuming subsequent slots. -/
def rank_players (players : List ScoreAndPudding) : Except Err (List Nat) :=
  if players.length = 0 then .error .assertionError else do
  let (unscored, ranks) ←
    (List.range players.length).foldlM rankStep (players.enum, ([] : List (Nat × Nat)))
  if unscored ≠ [] then .error .assertionError
  else if insertionSort (· ≤ ·) (ranks.map (·.1)) ≠ List.range players.length then
    .error .assertionError
  else do
    let player_ranks_list ← (List.range players.length).mapM fun idx =>
      match ranks.lookup idx with
      | some r => pure (r + 1)
      | none => (.error .valueError : Except Err Nat)
    match player_ranks_list with
    | [] => .error .assertionError
    | x :: xs =>
      if xs.foldl Nat.min x ≠ 1 then .error .assertionError
      else .ok player_ranks_list

/-! ## Probabilistic scoring primitives (`probablistic_scoring.py`)

`fractions.Fraction` is embedded as `Rat`; `math.comb` as `Nat.choose`
(which already returns `0` when the second argument exceeds the first, like
`comb`); the Python guard for negative subtractions becomes an explicit
comparison. -/

/-- `_possible_matching_hands`. -/
def possible_matching_hands (cards_in_deck this_card_in_deck cards_dealing
    this_card_dealt : Nat) : Nat :=
  if cards_dealing < this_card_dealt ∨ cards_in_deck < this_card_in_deck then 0
  else
    Nat.choose this_card_in_deck this_card_dealt *
      Nat.choose (cards_in_deck - this_card_in_deck) (cards_dealing - this_card_dealt)

/-- `_total_possible_hands`. -/
def total_possible_hands (cards_in_deck cards_dealing : Nat) : Nat :=
  Nat.choose cards_in_deck cards_dealing

/-- `num_cards_odds_list(cards_in_deck, this_card_in_deck, cards_dealing)`:
the exact probability of dealing exactly `n` target cards, for
`n = 0 .. min(this_card_in_deck, cards_dealing)`. -/
def num_cards_odds_list (cards_in_deck this_card_in_deck cards_dealing : Nat) :
    Except Err (List Rat) :=
  if cards_dealing > cards_in_deck then .error .valueError
  else if this_card_in_deck = 0 ∨ cards_dealing = 0 then .ok [1]
  else
    let total := total_possible_hands cards_in_deck cards_dealing
    if total = 0 then .error .assertionError
    else
      .ok ((List.range (Nat.min this_card_in_deck cards_dealing + 1)).map fun n =>
        ((possible_matching_hands cards_in_deck this_card_in_deck cards_dealing n : Rat)
          / (total : Rat)))

/-! ## Results and consolidation (`recursive_solver_ai.py`) -/

/-- `PUDDING_TIEBREAKER_SCALE`. -/
def PUDDING_TIEBREAKER_SCALE : Rat := 1 / 1024

/-- The frozen ordered dataclass `Result`; fields are rationals (Python
floats under exact field operations). -/
structure Result where
  neg_rank : Rat
  score_differential : Rat
  score_total : Rat
deriving DecidableEq, Repr

namespace Result

/-- The dataclass `order=True` comparison: lexicographic over the fields in
declaration order, as a boolean. -/
def ltb (r s : Result) : Bool :=
  r.neg_rank < s.neg_rank ∨
    (r.neg_rank = s.neg_rank ∧ (r.score_differential < s.score_differential ∨
      (r.score_differential = s.score_differential ∧ r.score_total < s.score_total)))

/-- Python `max(r, s)` under the dataclass order (returns `r` on ties). -/
def pyMax (r s : Result) : Result := if ltb r s then s else r

/-- Python `min(r, s)` under the dataclass order (returns `r` on ties). -/
def pyMin (r s : Result) : Result := if ltb s r then s else r

/-- `Result.__add__`: per-field addition. -/
def add (r s : Result) : Result :=
  ⟨r.neg_rank + s.neg_rank, r.score_differential + s.score_differential,
    r.score_total + s.score_total⟩

instance instAddResult : Add Result := ⟨add⟩

/-- `Result.__truediv__`: per-field division. -/
def div (r : Result) (divisor : Rat) : Result :=
  ⟨r.neg_rank / divisor, r.score_differential / divisor, r.score_total / divisor⟩

end Result

/-- `ConsolidationType`. -/
inductive ConsolidationType where
  | best
  | worst
  | average
deriving DecidableEq, Repr

/-- `ConsolidatedResults`. -/
structure ConsolidatedResults where
  best : Result
  average : Result
  worst : Result
deriving DecidableEq, Repr

/-- The consolidation loop of `_solve_recursive` (lines building
`pick_result` from each branch's `next_pick_result`, then dividing the
running sum by the branch count): `none` on an empty branch list, matching
the `pick_result is not None` assertion. -/
def consolidateStep (acc : Option ConsolidatedResults) (r : Result) :
    Option ConsolidatedResults :=
  match acc with
  | none => some (ConsolidatedResults.mk r r r)
  | some c => some ⟨c.best.pyMax r, c.average + r, c.worst.pyMin r⟩

def consolidate (results : List Result) : Option ConsolidatedResults :=
  match results.foldl consolidateStep none with
  | none => none
  | some c => some { c with average := c.average.div results.length }

/-- Python `(a, b) > (c, d)` for a `(Result, float)` pair. -/
def tupleGtRR (x y : Result × Rat) : Bool :=
  Result.ltb y.1 x.1 || (y.1 = x.1 && y.2 < x.2)

/-- Python `(a, b, c) > (d, e, f)` for a float triple. -/
def tripleGtQ (x y : Rat × Rat × Rat) : Bool :=
  y.1 < x.1 || (y.1 = x.1 && (y.2.1 < x.2.1 ||
    (y.2.1 = x.2.1 && y.2.2 < x.2.2)))

/-- `ConsolidatedResults.is_better_than`. -/
def ConsolidatedResults.is_better_than (self other : ConsolidatedResults)
    (last_round : Bool) (consolidation_type : ConsolidationType) : Bool :=
  match consolidation_type with
  | .best =>
    if last_round then
      tupleGtRR (self.best, self.average.neg_rank) (other.best, other.average.neg_rank)
    else
      tupleGtRR (self.best, self.average.score_differential)
        (other.best, other.average.score_differential)
  | .worst =>
    if last_round then
      tupleGtRR (self.worst, self.average.neg_rank) (other.worst, other.average.neg_rank)
    else
      tupleGtRR (self.worst, self.average.score_differential)
        (other.worst, other.average.score_differential)
  | .average =>
    if last_round then
      tripleGtQ (self.average.neg_rank, self.average.score_differential,
          self.average.score_total)
        (other.average.neg_rank, other.average.score_differential,
          other.average.score_total)
    else
      tripleGtQ (self.average.score_differential, self.average.neg_rank,
          self.average.score_total)
        (other.average.score_differential, other.average.neg_rank,
          other.average.score_total)

/-! ## Minimal state and transition (`recursive_solver_ai.py`) -/

/-- `_MinimalPlayerState`.  `total_scores` holds rationals because the
terminal scoring adds rational pudding expectations onto the integer
scores. -/
structure MinimalPlayerState where
  total_scores : List Rat
  num_puddings : List Nat
  plates : List Plate
  hands : List (List Card)
deriving DecidableEq, Repr

/-- `num_players` property. -/
def MinimalPlayerState.num_players (s : MinimalPlayerState) : Nat :=
  s.total_scores.length

/-- `deque.rotate(1)`: move the last element to the front. -/
def rotate1 {α} (l : List α) : List α :=
  l.drop (l.length - 1) ++ l.take (l.length - 1)

/-- The per-seat body of the `copy_with_played_cards` loop: remove each card
of the pick from the hand (`ValueError` when absent), fold it into the plate,
count puddings, and hand a Chopsticks card back after a 2-card pick. -/
def seatStep (pick : Pick) (plate : Plate) (hand : List Card) (npud : Nat) :
    Except Err (Plate × List Card × Nat) := do
  let (plate, hand, npud) ← pick.toList.foldlM
    (fun (st : Plate × List Card × Nat) card => do
      let (plate, hand, npud) := st
      if card ∉ hand then .error .valueError
      else do
        let plate ← plate.add card
        pure (plate, hand.erase card, if card = Card.Pudding then npud + 1 else npud))
    (plate, hand, npud)
  pure (plate, if pick.len = 2 then hand ++ [Card.Chopsticks] else hand, npud)

/-- The `for idx, (pick, plate, hand) in enumerate(zip(...))` loop of
`copy_with_played_cards`; `zip` stops at the shortest list and leaves the
remaining seats untouched, `num_puddings` is indexed (an out-of-range index
is an error, as in Python). -/
def copyLoop : List Pick → List Plate → List (List Card) → Nat → List Nat →
    Except Err (List Plate × List (List Card) × List Nat)
  | pick :: picks, plate :: plates, hand :: hands, idx, npuds => do
    let npud ← match npuds.get? idx with
      | some n => pure n
      | none => .error .valueError
    let (plate, hand, npud) ← seatStep pick plate hand npud
    let npuds := npuds.set idx npud
    let (plates, hands, npuds) ← copyLoop picks plates hands (idx + 1) npuds
    pure (plate :: plates, hand :: hands, npuds)
  | _, plates, hands, _, npuds => .ok (plates, hands, npuds)

/-- `copy_with_played_cards(*picks)`: apply one pick per seat to a fresh copy
and rotate hand ownership by one seat. -/
def MinimalPlayerState.copy_with_played_cards (s : MinimalPlayerState)
    (picks : List Pick) : Except Err MinimalPlayerState :=
  if picks.length ≠ s.hands.length then .error .valueError
  else do
    let (plates, hands, npuds) ← copyLoop picks s.plates s.hands 0 s.num_puddings
    pure { total_scores := s.total_scores, num_puddings := npuds,
           plates := plates, hands := rotate1 hands }

/-- The `for idx, (plate, hand) in enumerate(zip(plates, hands))` loop of
`play_last_cards_and_score`: each hand must hold exactly one card, which is
folded into the plate (counting puddings). -/
def finalLoop : List Plate → List (List Card) → Nat → List Nat →
    Except Err (List Plate × List Nat)
  | plate :: plates, hand :: hands, idx, npuds =>
    match hand with
    | [card] => do
      let plate ← plate.add card
      let npuds ← match npuds.get? idx with
        | some n => pure (npuds.set idx (if card = Card.Pudding then n + 1 else n))
        | none => .error .valueError
      let (plates, npuds) ← finalLoop plates hands (idx + 1) npuds
      pure (plate :: plates, npuds)
    | _ => .error .assertionError
  | plates, _, _, npuds => .ok (plates, npuds)

/-- Python `for idx in range(len(totals)): totals[idx] += adds[idx]`
(an `IndexError` when `adds` is shorter than `totals`). -/
def addIndexed (totals adds : List Rat) : Except Err (List Rat) :=
  if adds.length < totals.length then .error .valueError
  else .ok (totals.zipWith (· + ·) adds)

/-- `math.copysign(sqrtFn |d|, d)` for the square-root-scaled differential;
`sqrtFn` abstracts `math.sqrt` (irrational on most inputs, so not embeddable
as an exact rational function). -/
def copysignSqrt (sqrtFn : Rat → Rat) (d : Rat) : Rat :=
  if d < 0 then -(sqrtFn (-d)) else sqrtFn d

/-- `play_last_cards_and_score`.  `pscorer` abstracts the
`ProbablisticScorer.end_of_round_score_puddings` bound method of the scorer
object the Python function receives; `sqrtFn` abstracts `math.sqrt`.  The
`self.hands[0] is not self.hands[-1]` identity assertion holds exactly when
the deque has at least two hands. -/
def MinimalPlayerState.play_last_cards_and_score (s : MinimalPlayerState)
    (pscorer : List Nat → List Rat) (sqrtFn : Rat → Rat)
    (sqrt_score_differential : Bool := true) : Except Err Result := do
  if s.hands.length < 2 then .error .assertionError
  else do
    let (plates, npuds) ← finalLoop s.plates s.hands 0 s.num_puddings
    let round_scores ← score_plates plates
    let totals ← addIndexed s.total_scores (round_scores.map (fun n => (n : Rat)))
    let pudding_scores := pscorer npuds
    let totals ← addIndexed totals pudding_scores
    let ranks ← rank_players (List.zipWith
      (fun score pudding => ScoreAndPudding.mk score pudding) totals npuds)
    let my_neg_rank : Rat ← match ranks.head? with
      | some r => pure (-(r : Rat))
      | none => .error .valueError
    let totals ← addIndexed totals
      (npuds.map fun n => PUDDING_TIEBREAKER_SCALE * (n : Rat))
    let my_score ← match totals.head? with
      | some t => pure t
      | none => .error .valueError
    let score_differential :=
      if sqrt_score_differential then
        ((totals.drop 1).map fun score => copysignSqrt sqrtFn (my_score - score)).foldl
          (· + ·) 0
      else
        ((totals.drop 1).map fun score => my_score - score).foldl (· + ·) 0
    pure ⟨my_neg_rank, score_differential, my_score⟩

/-! ## The recursive solver -/

/-- `itertools.product(*lists)`: the cross product, first factor varying
slowest; the empty factor list yields the single empty combination. -/
def listProduct {α} : List (List α) → List (List α)
  | [] => [[]]
  | l :: ls => l.flatMap fun x => (listProduct ls).map (x :: ·)

/-- The parameters `_solve_recursive` forwards unchanged to every recursive
call: the probabilistic scorer and square root (abstracted as functions), the
round phase, the consolidation policy and the two pruning flags. -/
structure SolverEnv where
  pscorer : List Nat → List Rat
  sqrtFn : Rat → Rat
  last_round : Bool
  consolidation_type : ConsolidationType
  prune_my_bad_picks : Bool
  prune_others_bad_picks : Bool

/-- The `for pick_option in my_pick_options` loop of `_solve_recursive`,
parameterised by the one-level-deeper recursive call `recurse`: fold the
consolidated branch results into the running best pick, then project the
policy's aggregate of the winner. -/
def solveLoop (env : SolverEnv) (s : MinimalPlayerState)
    (recurse : MinimalPlayerState → Except Err (Pick × Option Result))
    (my_pick_options : List Pick)
    (other_players_options_product : List (List Pick)) :
    Except Err (Pick × Option Result) := do
  let best ← my_pick_options.foldlM
    (fun (best : Option (Pick × ConsolidatedResults)) pick_option => do
      let branch_results ← other_players_options_product.mapM
        fun other_player_option => do
          let next_player_state ← s.copy_with_played_cards
            (pick_option :: other_player_option)
          let (_, next_pick_result) ← recurse next_player_state
          match next_pick_result with
          | some r => pure r
          | none => .error .valueError
      if branch_results.length = 0 then .error .assertionError
      else
        match consolidate branch_results with
        | none => .error .assertionError
        | some pick_result =>
          match best with
          | none => pure (some (pick_option, pick_result))
          | some (best_pick, best_result) =>
            if pick_result.is_better_than best_result env.last_round
                env.consolidation_type then
              pure (some (pick_option, pick_result))
            else pure (some (best_pick, best_result)))
    none
  match best with
  | none => .error .assertionError
  | some (best_pick, best_pick_result) =>
    let result := match env.consolidation_type with
      | .best => best_pick_result.best
      | .worst => best_pick_result.worst
      | .average => best_pick_result.average
    pure (best_pick, some result)

/-- `_solve_recursive`, with a structural fuel (first argument) that the
Python recursion does not have: `fuel` bounds how many further recursion
levels the embedding may unfold, and exhaustion is the `Err.fuelOut` artifact.
The Python `assert recursion_depth < 10` is the `Err.depthAssert` branch.
The interleaved consolidation loop is embedded as collecting each branch's
`Result` (in loop order, short-circuiting on the first exception exactly as
the loop does) followed by `consolidate`; see `solveLoop`. -/
def solveRecursive (env : SolverEnv) : Nat → MinimalPlayerState → Nat →
    Except Err (Pick × Option Result)
  | 0, _, _ => .error .fuelOut
  | fuel + 1, s, recursion_depth => do
    if recursion_depth ≥ 10 then .error .depthAssert
    else do
      let need_result := recursion_depth ≠ 0
      let hand ← match s.hands.head? with
        | some h => pure h
        | none => .error .valueError
      let plate ← match s.plates.head? with
        | some p => pure p
        | none => .error .valueError
      match hand with
      | [] => .error .valueError
      | only :: hrest =>
        if hrest = [] then do
          let pick := mkPick only
          let result ← s.play_last_cards_and_score env.pscorer env.sqrtFn
          pure (pick, some result)
        else do
          let my_pick_options ← get_all_picks hand plate env.prune_my_bad_picks
          let other_players_options ←
            (List.zip (s.hands.drop 1) (s.plates.drop 1)).mapM fun hp =>
              get_all_picks hp.1 hp.2 env.prune_others_bad_picks
          let other_players_options_product := listProduct other_players_options
          if my_pick_options.length = 1 ∧ ¬ need_result then
            match my_pick_options.head? with
            | some only_option => pure (only_option, none)
            | none => .error .assertionError
          else
            solveLoop env s
              (fun st => solveRecursive env fuel st (recursion_depth + 1))
              my_pick_options other_players_options_product

/-! ## The solver entry point (`solve_recursive`) -/

/-- The slice of `player.PlayerState` that `solve_recursive` and
`_MinimalPlayerState.from_player_state` read: the ring of known hands (own
hand first), the public per-player data in seat order, the count of dealt
cards not yet seen (`any_unknown_cards` is its positivity) and the round
phase. -/
structure PlayerState where
  hands : List (List Card)
  total_scores : List Int
  num_puddings : List Nat
  plates : List Plate
  num_unseen_dealt_cards : Nat
  last_round : Bool
deriving DecidableEq, Repr

namespace PlayerState

/-- `PlayerState.any_unknown_cards`. -/
def any_unknown_cards (ps : PlayerState) : Bool := ps.num_unseen_dealt_cards > 0

/-- `PlayerState.hand`: the own hand, `[]` when no hands are known. -/
def hand (ps : PlayerState) : List Card := ps.hands.headD []

/-- `PlayerState.plate`: the own public state's plate (always present in
Python; an absent seat gives the default plate here). -/
def plate (ps : PlayerState) : Plate := ps.plates.headD {}

/-- `1 + len(player_state.other_player_states)`. -/
def num_players (ps : PlayerState) : Nat := ps.total_scores.length

end PlayerState

/-- `_MinimalPlayerState.from_player_state`: rejects unknown cards, then
builds the minimal snapshot (the dataclass `__post_init__` raising on
mismatched lengths). -/
def MinimalPlayerState.from_player_state (ps : PlayerState) :
    Except Err MinimalPlayerState :=
  if ps.any_unknown_cards then .error .valueError
  else
    let s : MinimalPlayerState :=
      { total_scores := ps.total_scores.map fun n => (n : Rat),
        num_puddings := ps.num_puddings, plates := ps.plates, hands := ps.hands }
    if s.total_scores.length = s.num_puddings.length ∧
        s.num_puddings.length = s.plates.length ∧
        s.plates.length = s.hands.length then
      .ok s
    else .error .valueError

/-- The acting seat's pruning decision of `solve_recursive`. -/
def pruneMyBadPicksFlag (num_players num_cards : Nat) : Bool :=
  decide (num_players < 3) ||
    decide (Nat.factorial num_cards ^ num_players > 2000)

/-- `solve_recursive(player_state, consolidation_type)`: the shortcut
returns, the unknown-cards rejection, the tree-size-based pruning decisions
and the call into `_solve_recursive` (fuel: the hand size, which the depth
proofs show suffices).  `pscorer`/`sqrtFn` abstract the `ProbablisticScorer`
built from the player state and `math.sqrt`, as in `solveRecursive`. -/
def solve_recursive (ps : PlayerState) (pscorer : List Nat → List Rat)
    (sqrtFn : Rat → Rat) (consolidation_type : ConsolidationType) :
    Except Err Pick := do
  let hand := ps.hand
  match hand with
  | [] => .error .valueError
  | first :: hrest =>
    if hrest = [] then pure (mkPick first)
    else if ps.plate.chopsticks = 0 ∧ hand.dedup.length = 1 then
      pure (mkPick first)
    else do
      let num_cards := hand.length
      let num_players := ps.num_players
      let minimal_player_state ← MinimalPlayerState.from_player_state ps
      let prune_my_bad_picks := pruneMyBadPicksFlag num_players num_cards
      let prune_others_bad_picks := true
      let (pick, _) ← solveRecursive
        { pscorer := pscorer, sqrtFn := sqrtFn, last_round := ps.last_round,
          consolidation_type := consolidation_type,
          prune_my_bad_picks := prune_my_bad_picks,
          prune_others_bad_picks := prune_others_bad_picks }
        num_cards minimal_player_state 0
      pure pick

/-! ## Spec-side definitions

Definitions written from the specification's words (never used inside the
embedded code above), for comparing the code against the spec. -/

/-- Modelled from the spec's words for comparison: the per-field
(component-wise) maximum of two Results. -/
def Result.fieldwiseMax (r s : Result) : Result :=
  ⟨max r.neg_rank s.neg_rank, max r.score_differential s.score_differential,
    max r.score_total s.score_total⟩

/-- Modelled from the spec's words for comparison: the per-field
(component-wise) minimum of two Results. -/
def Result.fieldwiseMin (r s : Result) : Result :=
  ⟨min r.neg_rank s.neg_rank, min r.score_differential s.score_differential,
    min r.score_total s.score_total⟩

/-- Non-strict companion of the dataclass lexicographic order on `Result`. -/
def Result.lexLe (r s : Result) : Prop := r = s ∨ r.ltb s = true

/-! ## Claim C5 -/

/-- Claim C5 counterexample: `rank_players` on scores `[10, 10, 8]` with
puddings `[2, 1, 0]` returns `[1, 2, 3]` — the pudding tiebreak separates the
two players tied at 10 — not `[1, 1, 3]` as claimed. -/
theorem C5_counterexample :
    rank_players [⟨10, 2⟩, ⟨10, 1⟩, ⟨8, 0⟩] = .ok [1, 2, 3] ∧
      ([1, 2, 3] : List Nat) ≠ [1, 1, 3] :=
  ⟨rfl, by decide⟩

/-- Claim C5 (amended): `rank_players` on scores `[10, 10, 8]` with puddings
`[2, 1, 0]` returns `[1, 2, 3]`; the claimed `[1, 1, 3]` arises when the
players tied on score also tie on puddings, e.g. puddings `[1, 1, 0]`. -/
theorem C5_theorem :
    rank_players [⟨10, 2⟩, ⟨10, 1⟩, ⟨8, 0⟩] = .ok [1, 2, 3] ∧
      rank_players [⟨10, 1⟩, ⟨10, 1⟩, ⟨8, 0⟩] = .ok [1, 1, 3] :=
  ⟨rfl, rfl⟩

/-! ## Claim C8 -/

/-- Claim C8 counterexample: with 2 unused Wasabi banked, the pair of distinct
nigiri from hand `[SalmonNigiri, SquidNigiri]` is enumerated as the single
Pick `(SalmonNigiri, SquidNigiri)` — in hand order, which is not the sorted
order (`SquidNigiri` has the smaller enum value) — and `Pick(a, b)` does not
equal `Pick(b, a)` for such a pair, contradicting the claimed canonical
sorted storage. -/
theorem C8_counterexample :
    get_chopstick_picks [Card.SalmonNigiri, Card.SquidNigiri] (some 2) false
        = [mkPick Card.SalmonNigiri (some Card.SquidNigiri)] ∧
      mkPick Card.SalmonNigiri (some Card.SquidNigiri) ≠
        mkPick Card.SquidNigiri (some Card.SalmonNigiri) ∧
      (Card.SquidNigiri.val < Card.SalmonNigiri.val) :=
  ⟨rfl, by decide, by decide⟩

/-- Claim C8 (amended): with zero unused Wasabi, `Pick(Wasabi, SquidNigiri)`
and `Pick(SquidNigiri, Wasabi)` are two distinct enumerated Picks; with ≥ 2
unused Wasabi banked, a pair of two distinct Nigiri yields exactly one
enumerated Pick, but in the hand's encounter order — `Pick(a, b)` and
`Pick(b, a)` remain distinct objects for any pair where order may matter —
while only pairs where order can never matter are stored in sorted order. -/
theorem C8_theorem :
    (get_chopstick_picks [Card.Wasabi, Card.SquidNigiri] (some 0) false).toFinset
        = {mkPick Card.Wasabi (some Card.SquidNigiri),
            mkPick Card.SquidNigiri (some Card.Wasabi)} ∧
      mkPick Card.Wasabi (some Card.SquidNigiri) ≠
        mkPick Card.SquidNigiri (some Card.Wasabi) ∧
      get_chopstick_picks [Card.SalmonNigiri, Card.SquidNigiri] (some 2) false
        = [mkPick Card.SalmonNigiri (some Card.SquidNigiri)] ∧
      get_chopstick_picks [Card.SquidNigiri, Card.SalmonNigiri] (some 2) false
        = [mkPick Card.SquidNigiri (some Card.SalmonNigiri)] ∧
      mkPick Card.SalmonNigiri (some Card.SquidNigiri) ≠
        mkPick Card.SquidNigiri (some Card.SalmonNigiri) ∧
      mkPick Card.Pudding (some Card.Sashimi) = mkPick Card.Sashimi (some Card.Pudding) :=
  ⟨by decide, by decide, rfl, rfl, by decide, by decide⟩


/-! ## Helper lemmas -/

theorem insertSorted_perm {α} (le : α → α → Bool) (a : α) (l : List α) :
    (insertSorted le a l).Perm (a :: l) := by
  induction l with
  | nil => simp [insertSorted]
  | cons b bs ih =>
    simp only [insertSorted]
    split
    · exact List.Perm.refl _
    · exact (ih.cons b).trans (List.Perm.swap a b bs)

theorem insertionSort_perm {α} (le : α → α → Bool) (l : List α) :
    (insertionSort le l).Perm l := by
  induction l with
  | nil => exact List.Perm.refl _
  | cons a as ih =>
    exact (insertSorted_perm le a (insertionSort le as)).trans (ih.cons a)

theorem foldl_natMax_le (l : List Nat) (acc M : Nat) (hacc : acc ≤ M)
    (hl : ∀ x ∈ l, x ≤ M) : l.foldl Nat.max acc ≤ M := by
  induction l generalizing acc with
  | nil => simpa using hacc
  | cons b bs ih =>
    simp only [List.foldl_cons]
    exact ih _ (Nat.max_le.mpr ⟨hacc, hl b (by simp)⟩) (fun x hx => hl x (by simp [hx]))

theorem le_foldl_natMax (l : List Nat) (acc : Nat) :
    acc ≤ l.foldl Nat.max acc ∧ ∀ x ∈ l, x ≤ l.foldl Nat.max acc := by
  induction l generalizing acc with
  | nil => simp
  | cons b bs ih =>
    simp only [List.foldl_cons]
    obtain ⟨h1, h2⟩ := ih (Nat.max acc b)
    refine ⟨le_trans (Nat.le_max_left _ _) h1, ?_⟩
    intro x hx
    rcases List.mem_cons.mp hx with rfl | hx
    · exact le_trans (Nat.le_max_right _ _) h1
    · exact h2 x hx

theorem foldl_natMin_ge (l : List Nat) (acc m : Nat) (hacc : m ≤ acc)
    (hl : ∀ x ∈ l, m ≤ x) : m ≤ l.foldl Nat.min acc := by
  induction l generalizing acc with
  | nil => simpa using hacc
  | cons b bs ih =>
    simp only [List.foldl_cons]
    exact ih _ (le_min hacc (hl b (by simp))) (fun x hx => hl x (by simp [hx]))

theorem foldl_natMin_le (l : List Nat) (acc : Nat) :
    l.foldl Nat.min acc ≤ acc ∧ ∀ x ∈ l, l.foldl Nat.min acc ≤ x := by
  induction l generalizing acc with
  | nil => simp
  | cons b bs ih =>
    simp only [List.foldl_cons]
    obtain ⟨h1, h2⟩ := ih (Nat.min acc b)
    refine ⟨le_trans h1 (Nat.min_le_left _ _), ?_⟩
    intro x hx
    rcases List.mem_cons.mp hx with rfl | hx
    · exact le_trans h1 (Nat.min_le_right _ _)
    · exact h2 x hx


/-! ## Claims C2, C3, C4 -/


/-- Claim C4 (amended): `solve_recursive` rejects a PlayerState containing
unknown cards — failing with a ValueError and never yielding a Pick — whenever
it reaches the recursive search, i.e. when the hand has at least two cards and
the single-distinct-option shortcut does not apply; the trivial shortcut
returns bypass the check (see the counterexample). -/
theorem C4_theorem (ps : PlayerState) (pscorer : List Nat → List Rat)
    (sqrtFn : Rat → Rat) (ct : ConsolidationType)
    (hu : ps.any_unknown_cards = true) (h2 : 2 ≤ ps.hand.length)
    (hopt : ¬ (ps.plate.chopsticks = 0 ∧ ps.hand.dedup.length = 1)) :
    solve_recursive ps pscorer sqrtFn ct = .error .valueError := by
  rcases hhand : ps.hand with _ | ⟨a, t⟩
  · rw [hhand] at h2; simp at h2
  · have ht : t ≠ [] := by
      intro h
      rw [hhand, h] at h2
      simp at h2
    unfold solve_recursive
    rw [hhand]
    simp only [if_neg ht]
    rw [if_neg (by rw [← hhand]; exact hopt)]
    unfold MinimalPlayerState.from_player_state
    rw [if_pos hu]
    rfl

/-- Claim C2 (amended): when `solve_recursive` is invoked on a state with hand
size ≥ 2 and more than one distinct option, it calls the recursive search with
the acting seat's pruning flag set exactly when fewer than 3 players are seated
or the theoretical tree size `factorial(hand_size) ^ num_players` exceeds the
2000 threshold, and with the opponents' pruning decision the constant `true`
(no second threshold). -/
theorem C2_theorem (ps : PlayerState) (pscorer : List Nat → List Rat)
    (sqrtFn : Rat → Rat) (ct : ConsolidationType)
    (h2 : 2 ≤ ps.hand.length)
    (hopt : ¬ (ps.plate.chopsticks = 0 ∧ ps.hand.dedup.length = 1)) :
    (solve_recursive ps pscorer sqrtFn ct = do
      let ms ← MinimalPlayerState.from_player_state ps
      let (pick, _) ← solveRecursive
        { pscorer := pscorer, sqrtFn := sqrtFn, last_round := ps.last_round,
          consolidation_type := ct,
          prune_my_bad_picks := decide (ps.num_players < 3) ||
            decide (Nat.factorial ps.hand.length ^ ps.num_players > 2000),
          prune_others_bad_picks := true }
        ps.hand.length ms 0
      pure pick) ∧
    (pruneMyBadPicksFlag ps.num_players ps.hand.length = true ↔
      (ps.num_players < 3 ∨ 2000 < Nat.factorial ps.hand.length ^ ps.num_players)) := by
  constructor
  · rcases hhand : ps.hand with _ | ⟨a, t⟩
    · rw [hhand] at h2; simp at h2
    · have ht : t ≠ [] := by
        intro h
        rw [hhand, h] at h2
        simp at h2
      unfold solve_recursive
      rw [hhand]
      simp only [if_neg ht]
      rw [if_neg (by rw [← hhand]; exact hopt)]
      rw [← hhand]
      rfl
  · simp [pruneMyBadPicksFlag]

/-- Claim C3 counterexample: a seat playing the 2-card pick
`(Sashimi, Tempura)` while its Plate has zero Chopsticks available is applied
by `copy_with_played_cards` without any failure: the transition completes and
even hands a Chopsticks card back. -/
theorem C3_counterexample :
    (mkPick Card.Sashimi (some Card.Tempura)).len = 2 ∧
    ({} : Plate).chopsticks = 0 ∧
    (⟨[0, 0], [0, 0], [{}, {}],
        [[Card.Sashimi, Card.Tempura], [Card.Maki1, Card.Maki2]]⟩ :
      MinimalPlayerState).copy_with_played_cards
        [mkPick Card.Sashimi (some Card.Tempura), mkPick Card.Maki1] =
      .ok ⟨[0, 0], [0, 0],
        [⟨0, 0, 0, 0, 1, true, 0⟩, ⟨0, 1, 0, 0, 0, false, 0⟩],
        [[Card.Maki2], [Card.Chopsticks]]⟩ :=
  ⟨rfl, rfl, rfl⟩

/-- Claim C3 (amended): the chopsticks invariant violation lives in
`Plate.play`, not in the solver's apply transition: `Plate.play` fails fatally
on a 2-card Pick when the plate has zero Chopsticks, while the per-seat apply
step of `copy_with_played_cards` performs no such check and, whenever it
completes on a 2-card Pick, returns one Chopsticks card to that seat's hand
(appended at the end). -/
theorem C3_theorem (plate : Plate) (pick : Pick) (h2 : pick.len = 2) :
    (plate.chopsticks = 0 → Plate.play plate pick = .error .valueError) ∧
    ∀ hand npud plate2 hand2 npud2,
      seatStep pick plate hand npud = .ok (plate2, hand2, npud2) →
      hand2.getLast? = some Card.Chopsticks := by
  constructor
  · intro h0
    unfold Plate.play
    rw [if_pos h2, if_pos h0]
    rfl
  · intro hand npud plate2 hand2 npud2 hok
    unfold seatStep at hok
    rcases hfold : pick.toList.foldlM
        (fun (st : Plate × List Card × Nat) card => do
          let (plate, hand, npud) := st
          if card ∉ hand then Except.error Err.valueError
          else do
            let plate ← plate.add card
            pure (plate, hand.erase card,
              if card = Card.Pudding then npud + 1 else npud))
        (plate, hand, npud) with e | v
    · rw [hfold] at hok
      exact absurd hok (by simp [Except.bind])
    · rw [hfold] at hok
      obtain ⟨p3, h3, n3⟩ := v
      have hok2 : (Except.ok
          (p3, if pick.len = 2 then h3 ++ [Card.Chopsticks] else h3, n3) :
          Except Err (Plate × List Card × Nat)) = .ok (plate2, hand2, npud2) := hok
      rw [if_pos h2] at hok2
      injection hok2 with hv
      cases hv
      exact List.getLast?_concat _



/-- Claim C2 counterexample: with 2 players and hand size 2 the claimed
condition "≥ 3 players or tree size over threshold" is false, yet the code's
acting-seat pruning flag is enabled (`num_players < 3` enables it). -/
theorem C2_counterexample :
    pruneMyBadPicksFlag 2 2 = true ∧ ¬ (3 ≤ 2 ∨ 2000 < Nat.factorial 2 ^ 2) :=
  ⟨rfl, by decide⟩

/-- Claim C2 witness: the amended theorem applied to a concrete 2-player
state with hand `[Sashimi, Tempura]`. -/
theorem C2_witness :
    (2 ≤ (⟨[[Card.Sashimi, Card.Tempura], [Card.Maki1, Card.Maki2]],
        [0, 0], [0, 0], [{}, {}], 0, true⟩ : PlayerState).hand.length ∧
      ¬ ((⟨[[Card.Sashimi, Card.Tempura], [Card.Maki1, Card.Maki2]],
          [0, 0], [0, 0], [{}, {}], 0, true⟩ : PlayerState).plate.chopsticks = 0 ∧
        (⟨[[Card.Sashimi, Card.Tempura], [Card.Maki1, Card.Maki2]],
          [0, 0], [0, 0], [{}, {}], 0, true⟩ : PlayerState).hand.dedup.length = 1)) ∧
    ((solve_recursive ⟨[[Card.Sashimi, Card.Tempura], [Card.Maki1, Card.Maki2]],
        [0, 0], [0, 0], [{}, {}], 0, true⟩
        (fun l => l.map fun _ => (0 : Rat)) (fun q => q) .average = do
      let ms ← MinimalPlayerState.from_player_state
        ⟨[[Card.Sashimi, Card.Tempura], [Card.Maki1, Card.Maki2]],
          [0, 0], [0, 0], [{}, {}], 0, true⟩
      let (pick, _) ← solveRecursive
        { pscorer := fun l => l.map fun _ => (0 : Rat), sqrtFn := fun q => q,
          last_round := (⟨[[Card.Sashimi, Card.Tempura], [Card.Maki1, Card.Maki2]],
            [0, 0], [0, 0], [{}, {}], 0, true⟩ : PlayerState).last_round,
          consolidation_type := .average,
          prune_my_bad_picks := decide ((⟨[[Card.Sashimi, Card.Tempura],
              [Card.Maki1, Card.Maki2]], [0, 0], [0, 0], [{}, {}], 0, true⟩ :
              PlayerState).num_players < 3) ||
            decide (Nat.factorial (⟨[[Card.Sashimi, Card.Tempura],
                [Card.Maki1, Card.Maki2]], [0, 0], [0, 0], [{}, {}], 0, true⟩ :
                PlayerState).hand.length ^
              (⟨[[Card.Sashimi, Card.Tempura], [Card.Maki1, Card.Maki2]],
                [0, 0], [0, 0], [{}, {}], 0, true⟩ : PlayerState).num_players > 2000),
          prune_others_bad_picks := true }
        (⟨[[Card.Sashimi, Card.Tempura], [Card.Maki1, Card.Maki2]],
          [0, 0], [0, 0], [{}, {}], 0, true⟩ : PlayerState).hand.length ms 0
      pure pick) ∧
    (pruneMyBadPicksFlag (⟨[[Card.Sashimi, Card.Tempura], [Card.Maki1, Card.Maki2]],
        [0, 0], [0, 0], [{}, {}], 0, true⟩ : PlayerState).num_players
        (⟨[[Card.Sashimi, Card.Tempura], [Card.Maki1, Card.Maki2]],
          [0, 0], [0, 0], [{}, {}], 0, true⟩ : PlayerState).hand.length = true ↔
      ((⟨[[Card.Sashimi, Card.Tempura], [Card.Maki1, Card.Maki2]],
          [0, 0], [0, 0], [{}, {}], 0, true⟩ : PlayerState).num_players < 3 ∨
        2000 < Nat.factorial (⟨[[Card.Sashimi, Card.Tempura], [Card.Maki1, Card.Maki2]],
            [0, 0], [0, 0], [{}, {}], 0, true⟩ : PlayerState).hand.length ^
          (⟨[[Card.Sashimi, Card.Tempura], [Card.Maki1, Card.Maki2]],
            [0, 0], [0, 0], [{}, {}], 0, true⟩ : PlayerState).num_players))) :=
  ⟨⟨by decide, by decide⟩,
    C2_theorem ⟨[[Card.Sashimi, Card.Tempura], [Card.Maki1, Card.Maki2]],
        [0, 0], [0, 0], [{}, {}], 0, true⟩
      (fun l => l.map fun _ => (0 : Rat)) (fun q => q) .average
      (by decide) (by decide)⟩

/-- Claim C4 counterexample: a PlayerState whose opponent hand is a hidden
card (`any_unknown_cards` true) but whose own hand has a single card is
answered with a Pick by `solve_recursive` — the hand-size-1 shortcut returns
before the unknown-cards check. -/
theorem C4_counterexample :
    (⟨[[Card.Sashimi], [Card.Unknown]], [0, 0], [0, 0], [{}, {}], 1, true⟩ :
        PlayerState).any_unknown_cards = true ∧
    solve_recursive
        ⟨[[Card.Sashimi], [Card.Unknown]], [0, 0], [0, 0], [{}, {}], 1, true⟩
        (fun l => l.map fun _ => (0 : Rat)) (fun q => q) .average =
      .ok (mkPick Card.Sashimi) :=
  ⟨rfl, rfl⟩

/-- Claim C4 witness: the amended theorem applied to a 2-player state with
two unknown opponent cards and own hand `[Sashimi, Tempura]`. -/
theorem C4_witness :
    ((⟨[[Card.Sashimi, Card.Tempura], [Card.Unknown, Card.Unknown]],
        [0, 0], [0, 0], [{}, {}], 2, true⟩ : PlayerState).any_unknown_cards = true ∧
      2 ≤ (⟨[[Card.Sashimi, Card.Tempura], [Card.Unknown, Card.Unknown]],
        [0, 0], [0, 0], [{}, {}], 2, true⟩ : PlayerState).hand.length ∧
      ¬ ((⟨[[Card.Sashimi, Card.Tempura], [Card.Unknown, Card.Unknown]],
          [0, 0], [0, 0], [{}, {}], 2, true⟩ : PlayerState).plate.chopsticks = 0 ∧
        (⟨[[Card.Sashimi, Card.Tempura], [Card.Unknown, Card.Unknown]],
          [0, 0], [0, 0], [{}, {}], 2, true⟩ : PlayerState).hand.dedup.length = 1)) ∧
    solve_recursive
        ⟨[[Card.Sashimi, Card.Tempura], [Card.Unknown, Card.Unknown]],
          [0, 0], [0, 0], [{}, {}], 2, true⟩
        (fun l => l.map fun _ => (0 : Rat)) (fun q => q) .average =
      .error .valueError :=
  ⟨⟨rfl, by decide, by decide⟩,
    C4_theorem ⟨[[Card.Sashimi, Card.Tempura], [Card.Unknown, Card.Unknown]],
        [0, 0], [0, 0], [{}, {}], 2, true⟩
      (fun l => l.map fun _ => (0 : Rat)) (fun q => q) .average
      rfl (by decide) (by decide)⟩

/-- Claim C3 witness: the amended theorem applied to the empty plate and the
2-card pick `(Sashimi, Tempura)`. -/
theorem C3_witness :
    (mkPick Card.Sashimi (some Card.Tempura)).len = 2 ∧
    ((({} : Plate).chopsticks = 0 →
        Plate.play {} (mkPick Card.Sashimi (some Card.Tempura)) = .error .valueError) ∧
      ∀ hand npud plate2 hand2 npud2,
        seatStep (mkPick Card.Sashimi (some Card.Tempura)) {} hand npud =
          .ok (plate2, hand2, npud2) →
        hand2.getLast? = some Card.Chopsticks) :=
  ⟨by decide, C3_theorem {} (mkPick Card.Sashimi (some Card.Tempura)) (by decide)⟩

end Omakase

namespace Omakase

theorem Result.ltb_iff (r s : Result) : r.ltb s = true ↔
    (r.neg_rank < s.neg_rank ∨ (r.neg_rank = s.neg_rank ∧
      (r.score_differential < s.score_differential ∨
        (r.score_differential = s.score_differential ∧
          r.score_total < s.score_total)))) := by
  simp [Result.ltb]

theorem Result.ltb_trans {a b c : Result} (h1 : a.ltb b = true)
    (h2 : b.ltb c = true) : a.ltb c = true := by
  rw [Result.ltb_iff] at h1 h2 ⊢
  rcases h1 with h1 | ⟨e1, h1⟩ <;> rcases h2 with h2 | ⟨e2, h2⟩
  · exact Or.inl (lt_trans h1 h2)
  · exact Or.inl (e2 ▸ h1)
  · exact Or.inl (e1 ▸ h2)
  · refine Or.inr ⟨e1.trans e2, ?_⟩
    rcases h1 with h1 | ⟨f1, h1⟩ <;> rcases h2 with h2 | ⟨f2, h2⟩
    · exact Or.inl (lt_trans h1 h2)
    · exact Or.inl (f2 ▸ h1)
    · exact Or.inl (f1 ▸ h2)
    · exact Or.inr ⟨f1.trans f2, lt_trans h1 h2⟩

theorem Result.eq_of_fields {a b : Result} (h1 : a.neg_rank = b.neg_rank)
    (h2 : a.score_differential = b.score_differential)
    (h3 : a.score_total = b.score_total) : a = b := by
  cases a
  cases b
  simp_all

theorem Result.ltb_trichotomy (a b : Result) :
    a.ltb b = true ∨ a = b ∨ b.ltb a = true := by
  rcases lt_trichotomy a.neg_rank b.neg_rank with h1 | h1 | h1
  · exact Or.inl ((Result.ltb_iff a b).mpr (Or.inl h1))
  · rcases lt_trichotomy a.score_differential b.score_differential with h2 | h2 | h2
    · exact Or.inl ((Result.ltb_iff a b).mpr (Or.inr ⟨h1, Or.inl h2⟩))
    · rcases lt_trichotomy a.score_total b.score_total with h3 | h3 | h3
      · exact Or.inl ((Result.ltb_iff a b).mpr (Or.inr ⟨h1, Or.inr ⟨h2, h3⟩⟩))
      · exact Or.inr (Or.inl (Result.eq_of_fields h1 h2 h3))
      · exact Or.inr (Or.inr ((Result.ltb_iff b a).mpr
          (Or.inr ⟨h1.symm, Or.inr ⟨h2.symm, h3⟩⟩)))
    · exact Or.inr (Or.inr ((Result.ltb_iff b a).mpr (Or.inr ⟨h1.symm, Or.inl h2⟩)))
  · exact Or.inr (Or.inr ((Result.ltb_iff b a).mpr (Or.inl h1)))

theorem Result.lexLe_refl (a : Result) : a.lexLe a := Or.inl rfl

theorem Result.lexLe_trans {a b c : Result} (h1 : a.lexLe b) (h2 : b.lexLe c) :
    a.lexLe c := by
  rcases h1 with rfl | h1
  · exact h2
  · rcases h2 with rfl | h2
    · exact Or.inr h1
    · exact Or.inr (Result.ltb_trans h1 h2)

theorem Result.lexLe_pyMax_left (a b : Result) : a.lexLe (a.pyMax b) := by
  unfold Result.pyMax
  split
  · exact Or.inr (by assumption)
  · exact Result.lexLe_refl a

theorem Result.lexLe_pyMax_right (a b : Result) : b.lexLe (a.pyMax b) := by
  unfold Result.pyMax
  split
  · exact Result.lexLe_refl b
  · rename_i h
    rcases Result.ltb_trichotomy a b with h1 | h1 | h1
    · exact absurd h1 h
    · exact Or.inl h1.symm
    · exact Or.inr h1

theorem Result.pyMin_lexLe_left (a b : Result) : (a.pyMin b).lexLe a := by
  unfold Result.pyMin
  split
  · exact Or.inr (by assumption)
  · exact Result.lexLe_refl a

theorem Result.pyMin_lexLe_right (a b : Result) : (a.pyMin b).lexLe b := by
  unfold Result.pyMin
  split
  · exact Result.lexLe_refl b
  · rename_i h
    rcases Result.ltb_trichotomy a b with h1 | h1 | h1
    · exact Or.inr h1
    · exact Or.inl h1
    · exact absurd h1 h

theorem Result.pyMax_mem (a b : Result) : a.pyMax b = a ∨ a.pyMax b = b := by
  unfold Result.pyMax
  split
  · exact Or.inr rfl
  · exact Or.inl rfl

theorem Result.pyMin_mem (a b : Result) : a.pyMin b = a ∨ a.pyMin b = b := by
  unfold Result.pyMin
  split
  · exact Or.inr rfl
  · exact Or.inl rfl

theorem foldl_pyMax_greatest (l : List Result) (a : Result) :
    l.foldl Result.pyMax a ∈ a :: l ∧
      ∀ x ∈ a :: l, x.lexLe (l.foldl Result.pyMax a) := by
  induction l generalizing a with
  | nil => exact ⟨by simp, by intro x hx; simp at hx; subst hx; exact Result.lexLe_refl x⟩
  | cons b bs ih =>
    simp only [List.foldl_cons]
    obtain ⟨ihmem, ihle⟩ := ih (a.pyMax b)
    constructor
    · simp only [List.mem_cons]
      rcases List.mem_cons.mp ihmem with h | h
      · rcases Result.pyMax_mem a b with h2 | h2
        · exact Or.inl (h.trans h2)
        · exact Or.inr (Or.inl (h.trans h2))
      · exact Or.inr (Or.inr h)
    · intro x hx
      rcases List.mem_cons.mp hx with rfl | hx
      · exact Result.lexLe_trans (Result.lexLe_pyMax_left x b) (ihle _ (by simp))
      rcases List.mem_cons.mp hx with rfl | hx
      · exact Result.lexLe_trans (Result.lexLe_pyMax_right a x) (ihle _ (by simp))
      · exact ihle x (by simp [hx])

theorem foldl_pyMin_least (l : List Result) (a : Result) :
    l.foldl Result.pyMin a ∈ a :: l ∧
      ∀ x ∈ a :: l, (l.foldl Result.pyMin a).lexLe x := by
  induction l generalizing a with
  | nil => exact ⟨by simp, by intro x hx; simp at hx; subst hx; exact Result.lexLe_refl x⟩
  | cons b bs ih =>
    simp only [List.foldl_cons]
    obtain ⟨ihmem, ihle⟩ := ih (a.pyMin b)
    constructor
    · simp only [List.mem_cons]
      rcases List.mem_cons.mp ihmem with h | h
      · rcases Result.pyMin_mem a b with h2 | h2
        · exact Or.inl (h.trans h2)
        · exact Or.inr (Or.inl (h.trans h2))
      · exact Or.inr (Or.inr h)
    · intro x hx
      rcases List.mem_cons.mp hx with rfl | hx
      · exact Result.lexLe_trans (ihle _ (by simp)) (Result.pyMin_lexLe_left x b)
      rcases List.mem_cons.mp hx with rfl | hx
      · exact Result.lexLe_trans (ihle _ (by simp)) (Result.pyMin_lexLe_right a x)
      · exact ihle x (by simp [hx])

theorem foldl_consolidateStep_some (l : List Result) (c : ConsolidatedResults) :
    l.foldl consolidateStep (some c) =
      some ⟨l.foldl Result.pyMax c.best, l.foldl Result.add c.average,
        l.foldl Result.pyMin c.worst⟩ := by
  induction l generalizing c with
  | nil => rfl
  | cons r rs ih =>
    simp only [List.foldl_cons]
    rw [show consolidateStep (some c) r =
      some ⟨c.best.pyMax r, c.average + r, c.worst.pyMin r⟩ from rfl]
    rw [ih]
    rfl

theorem foldl_add_fields (l : List Result) (a : Result) :
    (l.foldl Result.add a).neg_rank = a.neg_rank + (l.map Result.neg_rank).sum ∧
    (l.foldl Result.add a).score_differential
      = a.score_differential + (l.map Result.score_differential).sum ∧
    (l.foldl Result.add a).score_total = a.score_total + (l.map Result.score_total).sum := by
  induction l generalizing a with
  | nil => simp
  | cons r rs ih =>
    simp only [List.foldl_cons, List.map_cons, List.sum_cons]
    obtain ⟨h1, h2, h3⟩ := ih (a.add r)
    refine ⟨?_, ?_, ?_⟩
    · rw [h1]; simp only [Result.add]; ring
    · rw [h2]; simp only [Result.add]; ring
    · rw [h3]; simp only [Result.add]; ring

/-! ## Claim C6 -/

/-- Claim C6 counterexample: `score_puddings [1, 1, 1, 1, 0]` awards each of
the four tied leaders `6 / 4 = 3/2` — an exact rational that is not an
integer — rather than the claimed floor `⌊6 / 4⌋ = 1`. -/
theorem C6_counterexample :
    score_puddings [1, 1, 1, 1, 0] = .ok [3/2, 3/2, 3/2, 3/2, -6] ∧
      ((3 : Rat) / 2).den ≠ 1 ∧ (3 : Rat) / 2 ≠ ((6 / 4 : Nat) : Rat) := by
  refine ⟨?_, by norm_num, by norm_num⟩
  norm_num [score_puddings, count_pudding, insertionSort, insertSorted,
    Bind.bind, Except.bind]

/-- Claim C6 (amended): `score_puddings` pays the +6 for most puddings split
with exact rational division among the players tied for most, and the −6 for
least split exactly among those tied for least — with no last-place penalty
in 2-player games — not rounded down to an integer. -/
theorem C6_theorem (nums : List Nat) (M m : Nat) (h2 : 2 ≤ nums.length)
    (hMmem : M ∈ nums) (hMub : ∀ x ∈ nums, x ≤ M)
    (hmmem : m ∈ nums) (hmlb : ∀ x ∈ nums, m ≤ x)
    (hne : M ≠ m) :
    ∃ out, score_puddings nums = .ok out ∧ out.length = nums.length ∧
      ∀ i (hi : i < nums.length) (ho : i < out.length),
        out.get ⟨i, ho⟩ =
          if nums.get ⟨i, hi⟩ = M then (6 : Rat) / ((nums.filter (· = M)).length : Rat)
          else if nums.get ⟨i, hi⟩ = m then
            -(if nums.length = 2 then 0
              else (6 : Rat) / ((nums.filter (· = m)).length : Rat))
          else 0 := by
  have hS : (insertionSort (· ≤ ·) nums).Perm nums := insertionSort_perm _ nums
  set S := insertionSort (· ≤ ·) nums with hSdef
  have hmax : S.foldl Nat.max 0 = M := by
    refine le_antisymm ?_ ((le_foldl_natMax S 0).2 M (hS.mem_iff.mpr hMmem))
    exact foldl_natMax_le S 0 M (Nat.zero_le M) (fun x hx => hMub x (hS.mem_iff.mp hx))
  have hSne : S ≠ [] := by
    have hlen : S.length = nums.length := hS.length_eq
    intro h
    rw [h] at hlen
    simp at hlen
    omega
  have hmin : S.foldl Nat.min (S.headD 0) = m := by
    refine le_antisymm ((foldl_natMin_le S _).2 m (hS.mem_iff.mpr hmmem)) ?_
    refine foldl_natMin_ge S _ m ?_ (fun x hx => hmlb x (hS.mem_iff.mp hx))
    cases hSv : S with
    | nil => exact (hSne hSv).elim
    | cons s0 srest =>
      have : s0 ∈ nums := hS.mem_iff.mp (by rw [hSv]; simp)
      simpa using hmlb s0 this
  have hcntM : (S.filter (· = M)).length = (nums.filter (· = M)).length :=
    (hS.filter _).length_eq
  have hcntm : (S.filter (· = m)).length = (nums.filter (· = m)).length :=
    (hS.filter _).length_eq
  have hcp : count_pudding nums = .ok (M, (6 : Rat) / ((nums.filter (· = M)).length : Rat),
      m, if nums.length = 2 then 0 else (6 : Rat) / ((nums.filter (· = m)).length : Rat)) := by
    simp only [count_pudding]
    rw [← hSdef, hmax, hmin, hcntM, hcntm]
    rw [if_neg (by omega : ¬ nums.length ≤ 1), if_neg hne]
  refine ⟨nums.map (fun n =>
      if n = M then (6 : Rat) / ((nums.filter (· = M)).length : Rat)
      else if n = m then
        -(if nums.length = 2 then 0
          else (6 : Rat) / ((nums.filter (· = m)).length : Rat))
      else 0), ?_, by simp, ?_⟩
  · unfold score_puddings
    rw [hcp]
    rfl
  · intro i hi ho
    simp [List.get_eq_getElem, List.getElem_map]

/-- Claim C6 witness: the amended theorem applied to pudding counts
`[1, 1, 1, 1, 0]` with maximum 1 and minimum 0. -/
theorem C6_witness :
    (2 ≤ ([1, 1, 1, 1, 0] : List Nat).length ∧ 1 ∈ ([1, 1, 1, 1, 0] : List Nat) ∧
      (∀ x ∈ ([1, 1, 1, 1, 0] : List Nat), x ≤ 1) ∧
      0 ∈ ([1, 1, 1, 1, 0] : List Nat) ∧
      (∀ x ∈ ([1, 1, 1, 1, 0] : List Nat), 0 ≤ x) ∧ (1 : Nat) ≠ 0) ∧
    (∃ out, score_puddings [1, 1, 1, 1, 0] = .ok out ∧
      out.length = ([1, 1, 1, 1, 0] : List Nat).length ∧
      ∀ i (hi : i < ([1, 1, 1, 1, 0] : List Nat).length) (ho : i < out.length),
        out.get ⟨i, ho⟩ =
          if ([1, 1, 1, 1, 0] : List Nat).get ⟨i, hi⟩ = 1 then
            (6 : Rat) / ((([1, 1, 1, 1, 0] : List Nat).filter (· = 1)).length : Rat)
          else if ([1, 1, 1, 1, 0] : List Nat).get ⟨i, hi⟩ = 0 then
            -(if ([1, 1, 1, 1, 0] : List Nat).length = 2 then 0
              else (6 : Rat) / ((([1, 1, 1, 1, 0] : List Nat).filter (· = 0)).length : Rat))
          else 0) :=
  ⟨⟨by decide, by decide, by decide, by decide, by decide, by decide⟩,
    C6_theorem [1, 1, 1, 1, 0] 1 0 (by decide) (by decide) (by decide) (by decide)
      (by decide) (by decide)⟩

/-! ## Claim C1 -/

/-- Claim C1 counterexample: consolidating the two branch Results
`(-1, 0, 0)` and `(-2, 5, 0)` gives `best = (-1, 0, 0)` and
`worst = (-2, 5, 0)` — the lexicographic maximum and minimum of the whole
Results — not the claimed per-field maximum `(-1, 5, 0)` and per-field
minimum `(-2, 0, 0)`. -/
theorem C1_counterexample :
    consolidate [⟨-1, 0, 0⟩, ⟨-2, 5, 0⟩] =
        some ⟨⟨-1, 0, 0⟩, ⟨-3/2, 5/2, 0⟩, ⟨-2, 5, 0⟩⟩ ∧
      (⟨-1, 0, 0⟩ : Result) ≠ Result.fieldwiseMax ⟨-1, 0, 0⟩ ⟨-2, 5, 0⟩ ∧
      (⟨-2, 5, 0⟩ : Result) ≠ Result.fieldwiseMin ⟨-1, 0, 0⟩ ⟨-2, 5, 0⟩ := by
  refine ⟨?_, ?_, ?_⟩
  · norm_num [consolidate, consolidateStep, Result.pyMax, Result.pyMin,
      Result.ltb, Result.add, Result.div, Result.instAddResult, HAdd.hAdd, Add.add]
  · norm_num [Result.fieldwiseMax, Result.mk.injEq]
  · norm_num [Result.fieldwiseMin, Result.mk.injEq]

/-- Claim C1 (amended): over the branch Results of a candidate Pick, the
consolidation fold yields `best` = a greatest branch Result under the
dataclass's lexicographic order on `(neg_rank, score_differential,
score_total)` (not the per-field maximum), `worst` = a least branch Result
under that order, and `average` = the per-field sum divided by the branch
count once all branches are visited. -/
theorem C1_theorem (results : List Result) (h : results ≠ []) :
    ∃ c, consolidate results = some c ∧
      c.best ∈ results ∧ (∀ r ∈ results, r.lexLe c.best) ∧
      c.worst ∈ results ∧ (∀ r ∈ results, c.worst.lexLe r) ∧
      c.average.neg_rank = (results.map Result.neg_rank).sum / results.length ∧
      c.average.score_differential
        = (results.map Result.score_differential).sum / results.length ∧
      c.average.score_total = (results.map Result.score_total).sum / results.length := by
  cases results with
  | nil => exact absurd rfl h
  | cons r rs =>
    have hfold : (r :: rs).foldl consolidateStep none =
        some ⟨rs.foldl Result.pyMax r, rs.foldl Result.add r, rs.foldl Result.pyMin r⟩ := by
      rw [List.foldl_cons]
      exact foldl_consolidateStep_some rs ⟨r, r, r⟩
    refine ⟨⟨rs.foldl Result.pyMax r,
      (rs.foldl Result.add r).div (r :: rs).length, rs.foldl Result.pyMin r⟩, ?_, ?_, ?_, ?_, ?_, ?_, ?_, ?_⟩
    · unfold consolidate
      rw [hfold]
    · exact (foldl_pyMax_greatest rs r).1
    · exact fun x hx => (foldl_pyMax_greatest rs r).2 x hx
    · exact (foldl_pyMin_least rs r).1
    · exact fun x hx => (foldl_pyMin_least rs r).2 x hx
    · show (rs.foldl Result.add r).neg_rank / ((r :: rs).length : Rat) = _
      rw [(foldl_add_fields rs r).1]
      simp
    · show (rs.foldl Result.add r).score_differential / ((r :: rs).length : Rat) = _
      rw [(foldl_add_fields rs r).2.1]
      simp
    · show (rs.foldl Result.add r).score_total / ((r :: rs).length : Rat) = _
      rw [(foldl_add_fields rs r).2.2]
      simp

/-- Claim C1 witness: the amended theorem applied to the two branch Results
`(-1, 0, 0)` and `(-2, 5, 0)`. -/
theorem C1_witness :
    ([⟨-1, 0, 0⟩, ⟨-2, 5, 0⟩] : List Result) ≠ [] ∧
    (∃ c, consolidate [⟨-1, 0, 0⟩, ⟨-2, 5, 0⟩] = some c ∧
      c.best ∈ ([⟨-1, 0, 0⟩, ⟨-2, 5, 0⟩] : List Result) ∧
      (∀ r ∈ ([⟨-1, 0, 0⟩, ⟨-2, 5, 0⟩] : List Result), r.lexLe c.best) ∧
      c.worst ∈ ([⟨-1, 0, 0⟩, ⟨-2, 5, 0⟩] : List Result) ∧
      (∀ r ∈ ([⟨-1, 0, 0⟩, ⟨-2, 5, 0⟩] : List Result), c.worst.lexLe r) ∧
      c.average.neg_rank = (([⟨-1, 0, 0⟩, ⟨-2, 5, 0⟩] : List Result).map
          Result.neg_rank).sum / ([⟨-1, 0, 0⟩, ⟨-2, 5, 0⟩] : List Result).length ∧
      c.average.score_differential = (([⟨-1, 0, 0⟩, ⟨-2, 5, 0⟩] : List Result).map
          Result.score_differential).sum / ([⟨-1, 0, 0⟩, ⟨-2, 5, 0⟩] : List Result).length ∧
      c.average.score_total = (([⟨-1, 0, 0⟩, ⟨-2, 5, 0⟩] : List Result).map
          Result.score_total).sum / ([⟨-1, 0, 0⟩, ⟨-2, 5, 0⟩] : List Result).length) :=
  ⟨by decide, C1_theorem [⟨-1, 0, 0⟩, ⟨-2, 5, 0⟩] (by decide)⟩


/-! ## Claim C9 -/


/-- A mapped `List.range` sum as a `Finset.range` sum. -/
theorem list_range_map_sum (m : Nat) (f : Nat → Rat) :
    ((List.range m).map f).sum = ∑ n in Finset.range m, f n := by
  induction m with
  | zero => simp
  | succ k ih => rw [List.range_succ, Finset.sum_range_succ, ← ih]; simp

/-- Vandermonde's identity truncated at `min K N`: the matching-hand counts
over all feasible target counts total the number of possible hands. -/
theorem vandermonde_trunc (D K N : Nat) (hK : K ≤ D) :
    ∑ n in Finset.range (Nat.min K N + 1),
      Nat.choose K n * Nat.choose (D - K) (N - n) = Nat.choose D N := by
  have hsub : Finset.range (Nat.min K N + 1) ⊆ Finset.range (N + 1) :=
    Finset.range_subset.mpr (Nat.succ_le_succ (Nat.min_le_right K N))
  have hzero : ∀ x ∈ Finset.range (N + 1), x ∉ Finset.range (Nat.min K N + 1) →
      Nat.choose K x * Nat.choose (D - K) (N - x) = 0 := by
    intro x hxmem hxn
    simp only [Finset.mem_range] at hxn hxmem
    have hminx : Nat.min K N < x := by omega
    have hmincase : Nat.min K N = K ∨ Nat.min K N = N := by
      rcases Nat.le_total K N with h | h
      · exact Or.inl (Nat.min_eq_left h)
      · exact Or.inr (Nat.min_eq_right h)
    have hxK : K < x := by rcases hmincase with h | h <;> omega
    rw [Nat.choose_eq_zero_of_lt hxK, Nat.zero_mul]
  rw [Finset.sum_subset hsub hzero]
  have hvm := Nat.add_choose_eq K (D - K) N
  rw [Nat.add_sub_cancel' hK] at hvm
  rw [hvm, Finset.Nat.sum_antidiagonal_eq_sum_range_succ_mk]

/-- Claim C9: for all `D`, `K ≤ D`, `N ≤ D`, the list returned by
`num_cards_odds_list(D, K, N)` consists of exact rational probabilities
(nonnegative) that sum to exactly 1. -/
theorem C9_theorem (D K N : Nat) (hK : K ≤ D) (hN : N ≤ D) :
    ∃ l, num_cards_odds_list D K N = .ok l ∧ l.sum = 1 ∧ ∀ p ∈ l, 0 ≤ p := by
  by_cases h0 : K = 0 ∨ N = 0
  · refine ⟨[1], ?_, by simp, by simp⟩
    unfold num_cards_odds_list
    rw [if_neg (by omega), if_pos h0]
  · push_neg at h0
    have htot : 0 < Nat.choose D N := Nat.choose_pos hN
    refine ⟨(List.range (Nat.min K N + 1)).map fun n =>
        ((possible_matching_hands D K N n : Rat) / (total_possible_hands D N : Rat)),
      ?_, ?_, ?_⟩
    · unfold num_cards_odds_list
      rw [if_neg (by omega), if_neg (by omega)]
      rw [if_neg (by unfold total_possible_hands; omega)]
    · rw [list_range_map_sum]
      rw [← Finset.sum_div]
      rw [← Nat.cast_sum]
      have hterm : ∀ n ∈ Finset.range (Nat.min K N + 1),
          possible_matching_hands D K N n =
            Nat.choose K n * Nat.choose (D - K) (N - n) := by
        intro n hn
        simp only [Finset.mem_range] at hn
        have hnN : n ≤ N := le_trans (Nat.lt_succ_iff.mp hn) (Nat.min_le_right K N)
        unfold possible_matching_hands
        rw [if_neg]
        push_neg
        exact ⟨by omega, by omega⟩
      rw [Finset.sum_congr rfl hterm, vandermonde_trunc D K N hK]
      unfold total_possible_hands
      exact div_self (by positivity)
    · intro p hp
      simp only [List.mem_map] at hp
      obtain ⟨n, _, rfl⟩ := hp
      positivity



/-- Claim C9 witness: the theorem applied to a 10-card deck with 3 target
cards, dealing 4. -/
theorem C9_witness :
    ((3 : Nat) ≤ 10 ∧ (4 : Nat) ≤ 10) ∧
    (∃ l, num_cards_odds_list 10 3 4 = .ok l ∧ l.sum = 1 ∧ ∀ p ∈ l, 0 ≤ p) :=
  ⟨⟨by decide, by decide⟩, C9_theorem 10 3 4 (by decide) (by decide)⟩


/-! ## Claim C7 -/


/-- A 1-card Pick has length 1. -/
theorem mkPick_none_len (a : Card) : (mkPick a none).len = 1 := rfl

/-- The constructor on a 2-card pick, with the match reduced. -/
theorem mkPick_some_eq (a b : Card) : mkPick a (some b) =
    if orderMayMatter a (some b) then (⟨a, some b⟩ : Pick)
    else if b.val < a.val then ⟨b, some a⟩ else ⟨a, some b⟩ := rfl

/-- A 2-card Pick has length 2. -/
theorem mkPick_some_len (a b : Card) : (mkPick a (some b)).len = 2 := by
  rw [mkPick_some_eq]
  split
  · rfl
  · split <;> rfl

/-- Cards of a 1-card Pick. -/
theorem mkPick_none_cards (a : Card) : (mkPick a none).cards = {a} := rfl

/-- Cards of a 2-card Pick: the constructor preserves the pair as a multiset. -/
theorem mkPick_some_cards (a b : Card) :
    (mkPick a (some b)).cards = a ::ₘ {b} := by
  rw [mkPick_some_eq]
  split
  · rfl
  · split
    · show (↑[b, a] : Multiset Card) = a ::ₘ {b}
      show b ::ₘ a ::ₘ (0 : Multiset Card) = a ::ₘ b ::ₘ 0
      exact Multiset.cons_swap b a 0
    · rfl

/-- Every combination drawn by `pairCombinations` is a sub-multiset of the list. -/
theorem pairCombinations_le (l : List Card) :
    ∀ cd ∈ pairCombinations l, cd.1 ::ₘ {cd.2} ≤ (l : Multiset Card) := by
  induction l with
  | nil => simp [pairCombinations]
  | cons c rest ih =>
    intro cd hcd
    rcases List.mem_append.mp hcd with h | h
    · obtain ⟨d, hd, rfl⟩ := List.mem_map.mp h
      show c ::ₘ {d} ≤ (c ::ₘ ↑rest : Multiset Card)
      exact Multiset.cons_le_cons c (Multiset.singleton_le.mpr (by simpa using hd))
    · exact le_trans (ih cd h) (by
        show (↑rest : Multiset Card) ≤ ↑(c :: rest)
        exact Multiset.le_cons_self _ _)

/-- A list of two or more cards has at least one pair combination. -/
theorem pairCombinations_ne_nil (a b : Card) (t : List Card) :
    pairCombinations (a :: b :: t) ≠ [] := by
  simp [pairCombinations]

/-- Pruning only discards options. -/
theorem pruneLikelyBadPicks_subset (l : List Card) :
    ∀ c ∈ pruneLikelyBadPicks l, c ∈ l := by
  intro c hc
  unfold pruneLikelyBadPicks at hc
  dsimp only at hc
  split_ifs at hc <;>
    first
    | exact hc
    | (simp only [List.mem_filter] at hc; tauto)

/-- Pruning keeps the highest variant, so it never empties a nonempty set. -/
theorem pruneLikelyBadPicks_ne_nil (l : List Card) (h : l ≠ []) :
    pruneLikelyBadPicks l ≠ [] := by
  unfold pruneLikelyBadPicks
  dsimp only
  set s1 := (if Card.SquidNigiri ∈ l then
      (l.filter (· ≠ Card.SalmonNigiri)).filter (· ≠ Card.EggNigiri)
    else if Card.SalmonNigiri ∈ l then l.filter (· ≠ Card.EggNigiri) else l)
    with hs1def
  have hs1ne : s1 ≠ [] := by
    rw [hs1def]
    split_ifs with h1 h2
    · exact List.ne_nil_of_mem (a := Card.SquidNigiri)
        (by simp [List.mem_filter, h1])
    · exact List.ne_nil_of_mem (a := Card.SalmonNigiri)
        (by simp [List.mem_filter, h2])
    · exact h
  split_ifs with h3 h4
  · exact List.ne_nil_of_mem (a := Card.Maki3) (by simp [List.mem_filter, h3])
  · exact List.ne_nil_of_mem (a := Card.Maki2) (by simp [List.mem_filter, h4])
  · exact hs1ne



/-- A swapped-order variant is a 2-card pick over the same cards. -/
theorem swappedOf_spec (w : Option Nat) (q p : Pick) (hp : p ∈ swappedOf w q) :
    p.len = 2 ∧ p.cards = q.cards := by
  unfold swappedOf at hp
  cases hq : q.b with
  | none => rw [hq] at hp; simp at hp
  | some cb =>
    rw [hq] at hp
    dsimp only at hp
    by_cases hab : q.a = cb
    · rw [if_pos hab] at hp
      simp at hp
    · rw [if_neg hab] at hp
      have hform : p = mkPick cb (some q.a) := by
        rcases List.mem_append.mp hp with h | h <;> split_ifs at h <;>
          simp at h <;> exact h
      subst hform
      refine ⟨mkPick_some_len _ _, ?_⟩
      rw [mkPick_some_cards]
      have htl : q.toList = [q.a, cb] := by
        unfold Pick.toList
        rw [hq]
      unfold Pick.cards
      rw [htl]
      show cb ::ₘ q.a ::ₘ 0 = q.a ::ₘ cb ::ₘ 0
      exact Multiset.cons_swap _ _ _



/-- Sorting a pair preserves it as a multiset. -/
theorem sortedPair_cards (a b : Card) :
    (sortedPair a b).1 ::ₘ {(sortedPair a b).2} = a ::ₘ {b} := by
  unfold sortedPair
  split
  · exact Multiset.cons_swap _ _ _
  · rfl

/-- A filtered list is a sub-multiset. -/
theorem coe_filter_le (l : List Card) (p : Card → Bool) :
    ((l.filter p : List Card) : Multiset Card) ≤ (l : Multiset Card) :=
  Multiset.coe_le.mpr (List.filter_sublist l).subperm

/-- Removing one occurrence and re-consing is the identity, as multisets. -/
theorem coe_cons_erase (l : List Card) (a : Card) (h : a ∈ l) :
    (l : Multiset Card) = a ::ₘ (l.erase a : List Card) :=
  Quot.sound (List.perm_cons_erase h)

/-- The double-Chopsticks pick drawn from a hand holding two of them. -/
theorem pickCC_spec (hand : List Card) (h2 : 2 ≤ hand.count Card.Chopsticks) :
    (mkPick Card.Chopsticks (some Card.Chopsticks)).len = 2 ∧
      (mkPick Card.Chopsticks (some Card.Chopsticks)).cards ≤ (hand : Multiset Card) := by
  refine ⟨mkPick_some_len _ _, ?_⟩
  rw [mkPick_some_cards]
  rw [Multiset.le_iff_count]
  intro a
  by_cases ha : a = Card.Chopsticks
  · subst ha
    simpa [Multiset.count_cons] using h2
  · simp [Multiset.count_cons, Multiset.count_singleton, ha]

/-- Unpruned chopstick combinations are 2-card sub-multisets of the hand. -/
theorem chopstick_pairs_spec (hand : List Card) :
    ∀ q ∈ (pairCombinations (hand.filter (· ≠ Card.Chopsticks))).map
        fun cd => mkPick cd.1 (some cd.2),
      q.len = 2 ∧ q.cards ≤ (hand : Multiset Card) := by
  intro q hq
  obtain ⟨cd, hcd, rfl⟩ := List.mem_map.mp hq
  refine ⟨mkPick_some_len _ _, ?_⟩
  rw [mkPick_some_cards]
  exact le_trans (pairCombinations_le _ cd hcd) (coe_filter_le hand _)

/-- Pruned chopstick combinations are 2-card sub-multisets of the hand. -/
theorem chopstick_prune_spec (hand : List Card) :
    ∀ q ∈ (pruneLikelyBadPicks (hand.filter (· ≠ Card.Chopsticks)).dedup).flatMap
        fun first_card =>
          (pruneLikelyBadPicks
            (((hand.filter (· ≠ Card.Chopsticks)).erase first_card).dedup)).map
            fun second_card =>
              let s := sortedPair first_card second_card
              mkPick s.1 (some s.2),
      q.len = 2 ∧ q.cards ≤ (hand : Multiset Card) := by
  intro q hq
  obtain ⟨first, hfirst, hq2⟩ := List.mem_flatMap.mp hq
  obtain ⟨second, hsecond, rfl⟩ := List.mem_map.mp hq2
  refine ⟨mkPick_some_len _ _, ?_⟩
  show (mkPick (sortedPair first second).1 (some (sortedPair first second).2)).cards ≤ _
  rw [mkPick_some_cards, sortedPair_cards]
  have hfirstco : first ∈ hand.filter (· ≠ Card.Chopsticks) :=
    List.mem_dedup.mp (pruneLikelyBadPicks_subset _ _ hfirst)
  have hsecondco : second ∈ (hand.filter (· ≠ Card.Chopsticks)).erase first :=
    List.mem_dedup.mp (pruneLikelyBadPicks_subset _ _ hsecond)
  refine le_trans (b := ((hand.filter (· ≠ Card.Chopsticks) : List Card) : Multiset Card))
    ?_ (coe_filter_le hand (· ≠ Card.Chopsticks))
  rw [coe_cons_erase _ first hfirstco]
  exact Multiset.cons_le_cons first (Multiset.singleton_le.mpr (by simpa using hsecondco))

/-- Every enumerated chopstick pick is a 2-card sub-multiset of the hand. -/
theorem get_chopstick_picks_spec (hand : List Card) (w : Option Nat) (prune : Bool) :
    ∀ p ∈ get_chopstick_picks hand w prune,
      p.len = 2 ∧ p.cards ≤ (hand : Multiset Card) := by
  intro p hp
  unfold get_chopstick_picks at hp
  dsimp only at hp
  by_cases hlt : (hand.filter (· ≠ Card.Chopsticks)).length < 2
  · rw [if_pos hlt] at hp
    split_ifs at hp with hcc
    · simp only [List.mem_singleton] at hp
      subst hp
      exact pickCC_spec hand hcc
    · simp at hp
  · rw [if_neg hlt] at hp
    -- name the branch-selected base choice list and establish its spec
    have hbase : ∀ q ∈ (if ¬ prune then
          ((pairCombinations (hand.filter (· ≠ Card.Chopsticks))).map fun cd =>
            mkPick cd.1 (some cd.2)).dedup
        else
          ((pruneLikelyBadPicks (hand.filter (· ≠ Card.Chopsticks)).dedup).flatMap
            fun first_card =>
              (pruneLikelyBadPicks
                (((hand.filter (· ≠ Card.Chopsticks)).erase first_card).dedup)).map
                fun second_card =>
                  let s := sortedPair first_card second_card
                  mkPick s.1 (some s.2)).dedup),
        q.len = 2 ∧ q.cards ≤ (hand : Multiset Card) := by
      intro q hq
      split_ifs at hq
      · exact chopstick_prune_spec hand q (List.mem_dedup.mp hq)
      · exact chopstick_pairs_spec hand q (List.mem_dedup.mp hq)
    -- now p is in the (possibly chopstick-pair-extended) deduplicated union
    have hunion : ∀ q, q ∈ ((if ¬ prune then
          ((pairCombinations (hand.filter (· ≠ Card.Chopsticks))).map fun cd =>
            mkPick cd.1 (some cd.2)).dedup
        else
          ((pruneLikelyBadPicks (hand.filter (· ≠ Card.Chopsticks)).dedup).flatMap
            fun first_card =>
              (pruneLikelyBadPicks
                (((hand.filter (· ≠ Card.Chopsticks)).erase first_card).dedup)).map
                fun second_card =>
                  let s := sortedPair first_card second_card
                  mkPick s.1 (some s.2)).dedup) ++
        (if w = none ∨ w.getD 0 ≤ 1 then
          (if ¬ prune then
            ((pairCombinations (hand.filter (· ≠ Card.Chopsticks))).map fun cd =>
              mkPick cd.1 (some cd.2)).dedup
          else
            ((pruneLikelyBadPicks (hand.filter (· ≠ Card.Chopsticks)).dedup).flatMap
              fun first_card =>
                (pruneLikelyBadPicks
                  (((hand.filter (· ≠ Card.Chopsticks)).erase first_card).dedup)).map
                  fun second_card =>
                    let s := sortedPair first_card second_card
                    mkPick s.1 (some s.2)).dedup).flatMap (swappedOf w)
        else [])).dedup →
        q.len = 2 ∧ q.cards ≤ (hand : Multiset Card) := by
      intro q hq
      rw [List.mem_dedup] at hq
      rcases List.mem_append.mp hq with hq1 | hq1
      · exact hbase q hq1
      · by_cases hw : w = none ∨ w.getD 0 ≤ 1
        · rw [if_pos hw] at hq1
          obtain ⟨src, hsrc, hqsw⟩ := List.mem_flatMap.mp hq1
          obtain ⟨hlen, hcards⟩ := swappedOf_spec w src q hqsw
          obtain ⟨-, hsle⟩ := hbase src hsrc
          exact ⟨hlen, hcards ▸ hsle⟩
        · rw [if_neg hw] at hq1
          simp at hq1
    by_cases hccnt : hand.count Card.Chopsticks ≥ 2
    · rw [if_pos hccnt] at hp
      rw [List.mem_dedup] at hp
      rcases List.mem_append.mp hp with hp1 | hp1
      · exact hunion p hp1
      · simp only [List.mem_singleton] at hp1
        subst hp1
        exact pickCC_spec hand hccnt
    · rw [if_neg hccnt] at hp
      exact hunion p hp



/-- Deduplication preserves nonemptiness. -/
theorem dedup_ne_nil {α} [DecidableEq α] (l : List α) (h : l ≠ []) :
    l.dedup ≠ [] := by
  obtain ⟨a, ha⟩ := List.exists_mem_of_ne_nil l h
  exact List.ne_nil_of_mem (List.mem_dedup.mpr ha)

/-- A chopstick-free hand of two or more cards always yields a chopstick pick. -/
theorem get_chopstick_picks_ne_nil (hand : List Card) (w : Option Nat)
    (prune : Bool) (h2 : 2 ≤ hand.length) (hcc : Card.Chopsticks ∉ hand) :
    get_chopstick_picks hand w prune ≠ [] := by
  have hne : hand ≠ [] := by
    intro h
    rw [h] at h2
    simp at h2
  have hfe : hand.filter (· ≠ Card.Chopsticks) = hand := by
    rw [List.filter_eq_self]
    intro a ha
    simp only [decide_eq_true_eq]
    intro h
    exact hcc (h ▸ ha)
  unfold get_chopstick_picks
  dsimp only
  rw [hfe]
  rw [if_neg (by omega : ¬ hand.length < 2)]
  have hcnt : ¬ hand.count Card.Chopsticks ≥ 2 := by
    rw [List.count_eq_zero_of_not_mem hcc]
    omega
  rw [if_neg hcnt]
  have hchoices_ne : (if ¬ prune then
        ((pairCombinations hand).map fun cd => mkPick cd.1 (some cd.2)).dedup
      else
        ((pruneLikelyBadPicks hand.dedup).flatMap fun first_card =>
          (pruneLikelyBadPicks ((hand.erase first_card).dedup)).map
            fun second_card =>
              let s := sortedPair first_card second_card
              mkPick s.1 (some s.2)).dedup) ≠ [] := by
    split_ifs with hpr
    · -- pruning on: build a member of the flatMap
      apply dedup_ne_nil
      have hfo : pruneLikelyBadPicks hand.dedup ≠ [] :=
        pruneLikelyBadPicks_ne_nil _ (dedup_ne_nil hand hne)
      obtain ⟨f, hf⟩ := List.exists_mem_of_ne_nil _ hfo
      have hfhand : f ∈ hand := List.mem_dedup.mp (pruneLikelyBadPicks_subset _ _ hf)
      have herase_ne : hand.erase f ≠ [] := by
        have := List.length_erase_of_mem hfhand
        intro h
        rw [h] at this
        simp at this
        omega
      have hso : pruneLikelyBadPicks ((hand.erase f).dedup) ≠ [] :=
        pruneLikelyBadPicks_ne_nil _ (dedup_ne_nil _ herase_ne)
      obtain ⟨scd, hscd⟩ := List.exists_mem_of_ne_nil _ hso
      refine List.ne_nil_of_mem (a := mkPick (sortedPair f scd).1 (some (sortedPair f scd).2)) ?_
      refine List.mem_flatMap.mpr ⟨f, hf, ?_⟩
      exact List.mem_map.mpr ⟨scd, hscd, rfl⟩
    · -- no pruning: the pair combinations are nonempty
      apply dedup_ne_nil
      rcases hand with _ | ⟨a, _ | ⟨b, t⟩⟩
      · simp at h2
      · simp at h2
      · intro h
        rw [List.map_eq_nil_iff] at h
        exact pairCombinations_ne_nil a b t h
  apply dedup_ne_nil
  intro h
  rw [List.append_eq_nil] at h
  exact hchoices_ne h.1



/-- Dropping Chopsticks from a duplicate-free list of two or more cards leaves something. -/
theorem filter_chop_ne_nil (l : List Card) (hnd : l.Nodup) (hlen : 1 < l.length) :
    l.filter (· ≠ Card.Chopsticks) ≠ [] := by
  rcases l with _ | ⟨a, _ | ⟨b, t⟩⟩
  · simp at hlen
  · simp at hlen
  · have hab : a ≠ b := by
      rw [List.nodup_cons] at hnd
      exact fun h => hnd.1 (h ▸ List.mem_cons_self b t)
    by_cases ha : a = Card.Chopsticks
    · refine List.ne_nil_of_mem (a := b) (List.mem_filter.mpr ⟨by simp, ?_⟩)
      simp only [decide_eq_true_eq]
      exact fun h => hab (by rw [ha, h])
    · exact List.ne_nil_of_mem (a := a) (List.mem_filter.mpr ⟨by simp, by simpa using ha⟩)

/-- Single-card picks over a sub-list of the hand. -/
theorem singles_spec (src hand : List Card) (hsub : ∀ c ∈ src, c ∈ hand) :
    ∀ p ∈ src.map (fun c => mkPick c none),
      p.cards ≤ (hand : Multiset Card) ∧ p.len = 1 := by
  intro p hp
  obtain ⟨c, hc, rfl⟩ := List.mem_map.mp hp
  refine ⟨?_, mkPick_none_len c⟩
  rw [mkPick_none_cards]
  exact Multiset.singleton_le.mpr (hsub c hc)

/-- Claim C7: for every non-empty hand and every plate (and either pruning
mode), `get_all_picks` succeeds with a non-empty set of Picks, each of whose
cards form a sub-multiset of the hand, 2-card Picks appearing only with a
chopstick banked and at least two cards in hand; the empty hand fails fast
with an assertion error instead of returning the empty set. -/
theorem C7_theorem (hand : List Card) (plate : Plate) (prune : Bool) :
    (hand ≠ [] → ∃ l, get_all_picks hand plate prune = .ok l ∧ l ≠ [] ∧
      ∀ p ∈ l, p.cards ≤ (hand : Multiset Card) ∧
        (p.len = 2 → plate.chopsticks ≠ 0 ∧ 2 ≤ hand.length)) ∧
    get_all_picks [] plate prune = .error .assertionError := by
  constructor
  · intro hne
    -- properties of the single-pick option list chosen by the first if
    have hsingles : ∀ p ∈ (if prune then
          (if (plate.chopsticks ≠ 0 ∧ hand.length > 1) ∧
              hand.length ≤ 1 + plate.chopsticks ∧ Card.Chopsticks ∉ hand then
            ([] : List Pick)
          else
            (pruneLikelyBadPicks
              (if hand.length ≤ 1 + plate.chopsticks ∧ hand.dedup.length > 1 then
                hand.dedup.filter (· ≠ Card.Chopsticks)
              else hand.dedup)).map fun c => mkPick c none)
        else (hand.map fun c => mkPick c none).dedup),
        p.cards ≤ (hand : Multiset Card) ∧ p.len = 1 := by
      intro p hp
      cases prune with
      | false =>
        rw [if_neg (by simp)] at hp
        exact singles_spec hand hand (fun c hc => hc) p (List.mem_dedup.mp hp)
      | true =>
        rw [if_pos rfl] at hp
        by_cases hlast : (plate.chopsticks ≠ 0 ∧ hand.length > 1) ∧
            hand.length ≤ 1 + plate.chopsticks ∧ Card.Chopsticks ∉ hand
        · rw [if_pos hlast] at hp
          simp at hp
        · rw [if_neg hlast] at hp
          refine singles_spec _ hand ?_ p hp
          intro c hc
          have hc2 := pruneLikelyBadPicks_subset _ _ hc
          split_ifs at hc2 with hfil
          · exact List.mem_dedup.mp (List.mem_filter.mp hc2).1
          · exact List.mem_dedup.mp hc2
    have hS_ne : ¬ ((plate.chopsticks ≠ 0 ∧ hand.length > 1) ∧
          hand.length ≤ 1 + plate.chopsticks ∧ Card.Chopsticks ∉ hand) →
        (if prune then
          (if (plate.chopsticks ≠ 0 ∧ hand.length > 1) ∧
              hand.length ≤ 1 + plate.chopsticks ∧ Card.Chopsticks ∉ hand then
            ([] : List Pick)
          else
            (pruneLikelyBadPicks
              (if hand.length ≤ 1 + plate.chopsticks ∧ hand.dedup.length > 1 then
                hand.dedup.filter (· ≠ Card.Chopsticks)
              else hand.dedup)).map fun c => mkPick c none)
        else (hand.map fun c => mkPick c none).dedup) ≠ [] := by
      intro hnot
      cases prune with
      | false =>
        rw [if_neg (by simp)]
        apply dedup_ne_nil
        simpa using hne
      | true =>
        rw [if_pos rfl, if_neg hnot]
        rw [Ne, List.map_eq_nil_iff]
        apply pruneLikelyBadPicks_ne_nil
        split_ifs with hfil
        · exact filter_chop_ne_nil _ (List.nodup_dedup hand) hfil.2
        · exact dedup_ne_nil hand hne
    have hchop := get_chopstick_picks_spec hand (some plate.unused_wasabi) prune
    unfold get_all_picks
    dsimp only
    by_cases hcu : plate.chopsticks ≠ 0 ∧ hand.length > 1
    · rw [if_pos hcu]
      have htot_ne : ((if prune then
            (if (plate.chopsticks ≠ 0 ∧ hand.length > 1) ∧
                hand.length ≤ 1 + plate.chopsticks ∧ Card.Chopsticks ∉ hand then
              ([] : List Pick)
            else
              (pruneLikelyBadPicks
                (if hand.length ≤ 1 + plate.chopsticks ∧ hand.dedup.length > 1 then
                  hand.dedup.filter (· ≠ Card.Chopsticks)
                else hand.dedup)).map fun c => mkPick c none)
          else (hand.map fun c => mkPick c none).dedup) ++
            get_chopstick_picks hand (some plate.unused_wasabi) prune).dedup ≠ [] := by
        apply dedup_ne_nil
        intro h
        rw [List.append_eq_nil] at h
        by_cases hlast : (plate.chopsticks ≠ 0 ∧ hand.length > 1) ∧
            hand.length ≤ 1 + plate.chopsticks ∧ Card.Chopsticks ∉ hand
        · have h2len : 2 ≤ hand.length := by
            have := hcu.2
            omega
          exact get_chopstick_picks_ne_nil hand (some plate.unused_wasabi) prune
            h2len hlast.2.2 h.2
        · exact hS_ne hlast h.1
      rw [if_neg htot_ne]
      refine ⟨_, rfl, htot_ne, ?_⟩
      intro p hp
      rw [List.mem_dedup] at hp
      rcases List.mem_append.mp hp with hp1 | hp1
      · obtain ⟨hcards, hlen1⟩ := hsingles p hp1
        exact ⟨hcards, fun h2 => absurd (hlen1 ▸ h2) (by simp)⟩
      · obtain ⟨hlen2, hcards⟩ := hchop p hp1
        refine ⟨hcards, fun _ => ⟨hcu.1, ?_⟩⟩
        have := hcu.2
        omega
    · rw [if_neg hcu]
      have hnot : ¬ ((plate.chopsticks ≠ 0 ∧ hand.length > 1) ∧
          hand.length ≤ 1 + plate.chopsticks ∧ Card.Chopsticks ∉ hand) := by
        intro h
        exact hcu h.1
      have hS := hS_ne hnot
      have hd_ne : ((if prune then
            (if (plate.chopsticks ≠ 0 ∧ hand.length > 1) ∧
                hand.length ≤ 1 + plate.chopsticks ∧ Card.Chopsticks ∉ hand then
              ([] : List Pick)
            else
              (pruneLikelyBadPicks
                (if hand.length ≤ 1 + plate.chopsticks ∧ hand.dedup.length > 1 then
                  hand.dedup.filter (· ≠ Card.Chopsticks)
                else hand.dedup)).map fun c => mkPick c none)
          else (hand.map fun c => mkPick c none).dedup)).dedup ≠ [] :=
        dedup_ne_nil _ hS
      rw [if_neg hd_ne]
      refine ⟨_, rfl, hd_ne, ?_⟩
      intro p hp
      rw [List.mem_dedup] at hp
      obtain ⟨hcards, hlen1⟩ := hsingles p hp
      exact ⟨hcards, fun h2 => absurd (hlen1 ▸ h2) (by simp)⟩
  · unfold get_all_picks
    dsimp only
    have hcu : ¬ (plate.chopsticks ≠ 0 ∧ ([] : List Card).length > 1) := by simp
    rw [if_neg hcu]
    cases prune with
    | false =>
      rw [if_neg (show ¬ (false = true) by simp)]
      rw [if_pos (show ((([] : List Card).map fun c => mkPick c none).dedup.dedup :
        List Pick) = [] from rfl)]
    | true =>
      rw [if_pos (show (true = true) from rfl)]
      rw [if_neg (show ¬ ((plate.chopsticks ≠ 0 ∧ ([] : List Card).length > 1) ∧
        ([] : List Card).length ≤ 1 + plate.chopsticks ∧
          Card.Chopsticks ∉ ([] : List Card)) from fun h => hcu h.1)]
      rw [if_neg (show ¬ (([] : List Card).length ≤ 1 + plate.chopsticks ∧
        ([] : List Card).dedup.length > 1) by simp)]
      rw [if_pos (show (((pruneLikelyBadPicks ([] : List Card).dedup).map
        fun c => mkPick c none).dedup : List Pick) = [] from rfl)]


/-- Claim C7 witness: the theorem applied to hand `[Sashimi, Tempura]` with
one chopstick banked. -/
theorem C7_witness :
    (([Card.Sashimi, Card.Tempura] : List Card) ≠ []) ∧
    (∃ l, get_all_picks [Card.Sashimi, Card.Tempura] {chopsticks := 1} false =
        .ok l ∧ l ≠ [] ∧
      ∀ p ∈ l, p.cards ≤ (([Card.Sashimi, Card.Tempura] : List Card) : Multiset Card) ∧
        (p.len = 2 → ({chopsticks := 1} : Plate).chopsticks ≠ 0 ∧
          2 ≤ ([Card.Sashimi, Card.Tempura] : List Card).length)) ∧
    get_all_picks [] ({chopsticks := 1} : Plate) false = .error .assertionError :=
  ⟨by decide,
    (C7_theorem [Card.Sashimi, Card.Tempura] {chopsticks := 1} false).1 (by decide),
    (C7_theorem [Card.Sashimi, Card.Tempura] {chopsticks := 1} false).2⟩

end Omakase

namespace Omakase

def NotErr {α} (e : Err) (x : Except Err α) : Prop := x ≠ .error e

def Benign {α} (x : Except Err α) : Prop :=
  ∀ e, x = .error e → e = .valueError ∨ e = .assertionError

theorem Benign.notErr {α} {x : Except Err α} (hb : Benign x) (e : Err)
    (h1 : e ≠ .valueError) (h2 : e ≠ .assertionError) : NotErr e x := by
  intro h
  rcases hb e h with h3 | h3
  · exact h1 h3
  · exact h2 h3

theorem benign_ok {α} (a : α) : Benign (Except.ok a : Except Err α) := by
  intro e h
  cases h

theorem benign_pure {α} (a : α) : Benign (pure a : Except Err α) := benign_ok a

theorem benign_valueError {α} :
    Benign (Except.error Err.valueError : Except Err α) := by
  intro e h
  cases h
  exact Or.inl rfl

theorem benign_assertionError {α} :
    Benign (Except.error Err.assertionError : Except Err α) := by
  intro e h
  cases h
  exact Or.inr rfl

theorem benign_bind {α β} {x : Except Err α} {f : α → Except Err β}
    (hx : Benign x) (hf : ∀ a, x = .ok a → Benign (f a)) : Benign (x >>= f) := by
  intro e h
  cases x with
  | error e2 =>
    exact hx e (by simpa [Bind.bind, Except.bind] using h)
  | ok a =>
    exact hf a rfl e (by simpa [Bind.bind, Except.bind] using h)

theorem benign_foldlM {α β} (f : β → α → Except Err β) (l : List α) (init : β)
    (hf : ∀ b a, Benign (f b a)) : Benign (l.foldlM f init) := by
  induction l generalizing init with
  | nil => exact benign_pure init
  | cons a as ih =>
    rw [List.foldlM_cons]
    exact benign_bind (hf init a) (fun b _ => ih b)

theorem benign_mapM_loop {α β} (f : α → Except Err β) (l : List α) (acc : List β)
    (hf : ∀ a ∈ l, Benign (f a)) : Benign (List.mapM.loop f l acc) := by
  induction l generalizing acc with
  | nil => exact benign_pure _
  | cons a as ih =>
    rw [List.mapM.loop]
    exact benign_bind (hf a (by simp)) fun b _ =>
      ih (b :: acc) (fun x hx => hf x (by simp [hx]))

theorem benign_mapM {α β} (f : α → Except Err β) (l : List α)
    (hf : ∀ a ∈ l, Benign (f a)) : Benign (l.mapM f) :=
  benign_mapM_loop f l [] hf

theorem notErr_bind {α β} {e : Err} {x : Except Err α} {f : α → Except Err β}
    (hx : NotErr e x) (hf : ∀ a, x = .ok a → NotErr e (f a)) :
    NotErr e (x >>= f) := by
  intro h
  cases x with
  | error e2 =>
    exact hx (by simpa [Bind.bind, Except.bind] using h)
  | ok a =>
    exact hf a rfl (by simpa [Bind.bind, Except.bind] using h)

theorem notErr_ok {α} (e : Err) (a : α) : NotErr e (Except.ok a : Except Err α) := by
  intro h
  cases h

theorem notErr_pure {α} (e : Err) (a : α) : NotErr e (pure a : Except Err α) :=
  notErr_ok e a

theorem notErr_error {α} {e e2 : Err} (h : e2 ≠ e) :
    NotErr e (Except.error e2 : Except Err α) := by
  intro hx
  exact h (by cases hx; rfl)

theorem notErr_foldlM {α β} {e : Err} (f : β → α → Except Err β) (l : List α)
    (init : β) (hf : ∀ b a, NotErr e (f b a)) : NotErr e (l.foldlM f init) := by
  induction l generalizing init with
  | nil => exact notErr_pure e init
  | cons a as ih =>
    rw [List.foldlM_cons]
    exact notErr_bind (hf init a) (fun b _ => ih b)

theorem notErr_mapM_loop {α β} {e : Err} (f : α → Except Err β) (l : List α)
    (acc : List β) (hf : ∀ a ∈ l, NotErr e (f a)) :
    NotErr e (List.mapM.loop f l acc) := by
  induction l generalizing acc with
  | nil => exact notErr_pure e _
  | cons a as ih =>
    rw [List.mapM.loop]
    exact notErr_bind (hf a (by simp)) fun b _ =>
      ih (b :: acc) (fun x hx => hf x (by simp [hx]))

theorem notErr_mapM {α β} {e : Err} (f : α → Except Err β) (l : List α)
    (hf : ∀ a ∈ l, NotErr e (f a)) : NotErr e (l.mapM f) :=
  notErr_mapM_loop f l [] hf

end Omakase

namespace Omakase

theorem benign_plate_add (p : Plate) (c : Card) : Benign (p.add c) := by
  unfold Plate.add
  split_ifs <;>
    first
    | exact benign_ok _
    | exact benign_valueError
    | exact benign_assertionError
    | (split <;>
        first
        | exact benign_ok _
        | exact benign_assertionError
        | (split_ifs <;> exact benign_ok _))

theorem benign_seatStep (pick : Pick) (plate : Plate) (hand : List Card)
    (npud : Nat) : Benign (seatStep pick plate hand npud) := by
  unfold seatStep
  refine benign_bind (benign_foldlM _ _ _ ?_) (fun a _ => benign_pure _)
  intro b a
  obtain ⟨pl, hd, np⟩ := b
  dsimp only
  split_ifs <;>
    first
    | exact benign_valueError
    | exact benign_bind (benign_plate_add pl a) (fun _ _ => benign_pure _)

theorem benign_copyLoop (picks : List Pick) (plates : List Plate)
    (hands : List (List Card)) (idx : Nat) (npuds : List Nat) :
    Benign (copyLoop picks plates hands idx npuds) := by
  induction picks generalizing plates hands idx npuds with
  | nil => exact benign_ok _
  | cons pick picks ih =>
    cases plates with
    | nil => exact benign_ok _
    | cons plate plates =>
      cases hands with
      | nil => exact benign_ok _
      | cons hand hands =>
        unfold copyLoop
        cases hidx : npuds.get? idx with
        | none => exact benign_bind benign_valueError (fun a ha => nomatch ha)
        | some n =>
          refine benign_bind (benign_pure _) fun a _ => ?_
          refine benign_bind (benign_seatStep _ _ _ _) fun b _ => ?_
          obtain ⟨pl, hd, np⟩ := b
          exact benign_bind (ih _ _ _ _) fun c _ => benign_pure _

theorem benign_copy_with_played_cards (s : MinimalPlayerState) (picks : List Pick) :
    Benign (s.copy_with_played_cards picks) := by
  unfold MinimalPlayerState.copy_with_played_cards
  split_ifs
  · exact benign_valueError
  · refine benign_bind (benign_copyLoop _ _ _ _ _) fun a _ => ?_
    obtain ⟨pl, hd, np⟩ := a
    exact benign_pure _

theorem benign_finalLoop (plates : List Plate) (hands : List (List Card))
    (idx : Nat) (npuds : List Nat) : Benign (finalLoop plates hands idx npuds) := by
  induction plates generalizing hands idx npuds with
  | nil => unfold finalLoop; exact benign_ok _
  | cons plate plates ih =>
    unfold finalLoop
    cases hands with
    | nil => exact benign_ok _
    | cons hand hands =>
      cases hand with
      | nil => exact benign_assertionError
      | cons c rest =>
        cases rest with
        | nil =>
          simp only [finalLoop]
          refine benign_bind (benign_plate_add _ _) fun a _ => ?_
          cases hidx : npuds.get? idx with
          | none => exact benign_bind benign_valueError (fun b hb => nomatch hb)
          | some n =>
            refine benign_bind (benign_pure _) fun b _ => ?_
            exact benign_bind (ih _ _ _) fun c _ => benign_pure _
        | cons d rest2 => exact benign_assertionError

theorem benign_addIndexed (totals adds : List Rat) :
    Benign (addIndexed totals adds) := by
  unfold addIndexed
  split_ifs
  · exact benign_valueError
  · exact benign_ok _

theorem benign_count_maki_plates (nums : List Nat) :
    Benign (count_maki_plates nums) := by
  unfold count_maki_plates
  split_ifs
  · exact benign_assertionError
  · split
    · dsimp only
      split_ifs <;> first | exact benign_ok _ | exact benign_assertionError
    · exact benign_assertionError

theorem benign_score_maki (nums : List Nat) : Benign (score_maki nums) := by
  unfold score_maki
  refine benign_bind (benign_count_maki_plates nums) fun a _ => ?_
  obtain ⟨m1, m2, m3, m4⟩ := a
  exact benign_ok _

theorem benign_score_plates (plates : List Plate) : Benign (score_plates plates) := by
  unfold score_plates
  split_ifs
  · exact benign_ok _
  · exact benign_bind (benign_score_maki _) fun a _ => benign_ok _

theorem benign_rankStep (st : List (Nat × ScoreAndPudding) × List (Nat × Nat))
    (rank : Nat) : Benign (rankStep st rank) := by
  obtain ⟨unscored, ranks⟩ := st
  unfold rankStep
  dsimp only
  split_ifs
  · exact benign_ok _
  · cases unscored with
    | nil => exact benign_assertionError
    | cons u us =>
      dsimp only
      split
      · exact benign_assertionError
      · exact benign_ok _
      · split_ifs
        · exact benign_assertionError
        · exact benign_ok _

theorem benign_rank_players (players : List ScoreAndPudding) :
    Benign (rank_players players) := by
  unfold rank_players
  split_ifs
  · exact benign_assertionError
  · refine benign_bind (benign_foldlM _ _ _ benign_rankStep) fun a _ => ?_
    obtain ⟨unscored, ranks⟩ := a
    dsimp only
    split_ifs
    · exact benign_assertionError
    · exact benign_assertionError
    · refine benign_bind (benign_mapM _ _ ?_) fun b _ => ?_
      · intro i _
        cases ranks.lookup i with
        | none => exact benign_valueError
        | some r => exact benign_pure _
      · cases b with
        | nil => exact benign_assertionError
        | cons x xs =>
          dsimp only
          split_ifs
          · exact benign_assertionError
          · exact benign_ok _

theorem benign_play_last_cards (s : MinimalPlayerState)
    (pscorer : List Nat → List Rat) (sqrtFn : Rat → Rat) (b : Bool) :
    Benign (s.play_last_cards_and_score pscorer sqrtFn b) := by
  unfold MinimalPlayerState.play_last_cards_and_score
  split_ifs
  · exact benign_assertionError
  all_goals
    refine benign_bind (benign_finalLoop _ _ _ _) fun a _ => ?_
  all_goals
    obtain ⟨plates, npuds⟩ := a
    refine benign_bind (benign_score_plates _) fun rs _ => ?_
    refine benign_bind (benign_addIndexed _ _) fun t1 _ => ?_
    refine benign_bind (benign_addIndexed _ _) fun t2 _ => ?_
    refine benign_bind (benign_rank_players _) fun ranks _ => ?_
    cases hh : ranks.head? with
    | none => exact benign_bind benign_valueError (fun y hy => nomatch hy)
    | some r =>
      refine benign_bind (benign_pure _) fun y _ => ?_
      refine benign_bind (benign_addIndexed _ _) fun t3 _ => ?_
      cases hh2 : t3.head? with
      | none => exact benign_bind benign_valueError (fun z hz => nomatch hz)
      | some m =>
        refine benign_bind (benign_pure _) fun z _ => ?_
        exact benign_pure _

theorem benign_get_all_picks (hand : List Card) (plate : Plate) (prune : Bool) :
    Benign (get_all_picks hand plate prune) := by
  unfold get_all_picks
  dsimp only
  split_ifs <;> first | exact benign_assertionError | exact benign_ok _

end Omakase

namespace Omakase

def HandsWellFormed (s : MinimalPlayerState) (cardsPerHand : Nat) : Prop :=
  s.total_scores.length = s.hands.length ∧
  s.num_puddings.length = s.hands.length ∧
  s.plates.length = s.hands.length ∧
  s.hands ≠ [] ∧
  (∀ h ∈ s.hands, h.length = cardsPerHand) ∧
  (∀ h ∈ s.hands, Card.Unknown ∉ h)

theorem exbind_ok {α β} (a : α) (k : α → Except Err β) :
    (Except.ok a >>= k) = k a := rfl

theorem exbind_err {α β} (e : Err) (k : α → Except Err β) :
    ((Except.error e : Except Err α) >>= k) = .error e := rfl

theorem exmap_ok {α β} (f : α → β) (a : α) :
    (Except.ok a : Except Err α).map f = .ok (f a) := rfl

theorem exmap_err {α β} (f : α → β) (e : Err) :
    (Except.error e : Except Err α).map f = .error e := rfl

theorem expure_bind {α β} (a : α) (k : α → Except Err β) :
    ((pure a : Except Err α) >>= k) = k a := rfl

theorem seatStep_eq_none (a : Card) (plate : Plate) (hand : List Card)
    (npud : Nat) :
    seatStep ⟨a, none⟩ plate hand npud =
      if a ∈ hand then
        (plate.add a).map fun p2 =>
          (p2, hand.erase a, if a = Card.Pudding then npud + 1 else npud)
      else .error .valueError := by
  unfold seatStep Pick.toList
  simp only [List.foldlM_cons, List.foldlM_nil]
  by_cases ha : a ∈ hand
  · rw [if_neg (by simpa using ha), if_pos ha]
    cases hadd : plate.add a <;> rfl
  · rw [if_pos (by simpa using ha), if_neg ha]
    rfl

theorem seatStep_eq_some (a bb : Card) (plate : Plate) (hand : List Card)
    (npud : Nat) :
    seatStep ⟨a, some bb⟩ plate hand npud =
      if a ∈ hand then
        (plate.add a) >>= fun p2 =>
          if bb ∈ hand.erase a then
            (p2.add bb).map fun p3 =>
              (p3, (hand.erase a).erase bb ++ [Card.Chopsticks],
                if bb = Card.Pudding then
                  (if a = Card.Pudding then npud + 1 else npud) + 1
                else if a = Card.Pudding then npud + 1 else npud)
          else .error .valueError
      else .error .valueError := by
  unfold seatStep Pick.toList
  simp only [List.foldlM_cons, List.foldlM_nil]
  by_cases ha : a ∈ hand
  · rw [if_neg (by simpa using ha), if_pos ha]
    cases hadd : plate.add a with
    | error e => rfl
    | ok p2 =>
      simp only [exbind_ok, expure_bind]
      by_cases hb : bb ∈ hand.erase a
      · rw [if_pos hb]
        rw [if_neg (show ¬ bb ∉ hand.erase a from by simpa using hb)]
        cases hadd2 : p2.add bb <;> rfl
      · rw [if_neg hb]
        rw [if_pos (show bb ∉ hand.erase a from hb)]
        rfl
  · rw [if_pos (by simpa using ha), if_neg ha]
    rfl

theorem seatStep_ok (pick : Pick) (plate : Plate) (hand : List Card) (npud : Nat)
    (out : Plate × List Card × Nat)
    (h : seatStep pick plate hand npud = .ok out) :
    out.2.1.length + 1 = hand.length ∧
      ∀ x ∈ out.2.1, x ∈ hand ∨ x = Card.Chopsticks := by
  obtain ⟨a, b⟩ := pick
  cases b with
  | none =>
    rw [seatStep_eq_none] at h
    by_cases ha : a ∈ hand
    · rw [if_pos ha] at h
      cases hadd : plate.add a with
      | error e => rw [hadd] at h; exact nomatch h
      | ok p2 =>
        rw [hadd] at h
        simp only [Except.map, Except.ok.injEq] at h
        subst h
        have := List.length_erase_of_mem ha
        have hpos : 0 < hand.length := List.length_pos_of_mem ha
        refine ⟨by dsimp only; omega, ?_⟩
        intro x hx
        exact Or.inl (List.mem_of_mem_erase hx)
    · rw [if_neg ha] at h
      exact nomatch h
  | some bb =>
    rw [seatStep_eq_some] at h
    by_cases ha : a ∈ hand
    · rw [if_pos ha] at h
      cases hadd : plate.add a with
      | error e => rw [hadd] at h; exact nomatch h
      | ok p2 =>
        rw [hadd] at h
        rw [exbind_ok] at h
        by_cases hb : bb ∈ hand.erase a
        · rw [if_pos hb] at h
          cases hadd2 : p2.add bb with
          | error e => rw [hadd2] at h; exact nomatch h
          | ok p3 =>
            rw [hadd2] at h
            simp only [Except.map, Except.ok.injEq] at h
            subst h
            have hlena := List.length_erase_of_mem ha
            have hlenb := List.length_erase_of_mem hb
            have hposa : 0 < hand.length := List.length_pos_of_mem ha
            have hposb : 0 < (hand.erase a).length := List.length_pos_of_mem hb
            constructor
            · dsimp only
              rw [List.length_append]
              simp only [List.length_singleton]
              omega
            · intro x hx
              dsimp only at hx
              rcases List.mem_append.mp hx with hx1 | hx1
              · exact Or.inl (List.mem_of_mem_erase (List.mem_of_mem_erase hx1))
              · simp only [List.mem_singleton] at hx1
                exact Or.inr hx1
        · rw [if_neg hb] at h
          exact nomatch h
    · rw [if_neg ha] at h
      exact nomatch h

end Omakase

namespace Omakase

theorem rotate1_length {α} (l : List α) : (rotate1 l).length = l.length := by
  unfold rotate1
  rw [List.length_append, List.length_drop, List.length_take]
  omega

theorem rotate1_mem {α} {x : α} {l : List α} (h : x ∈ rotate1 l) : x ∈ l := by
  unfold rotate1 at h
  rcases List.mem_append.mp h with h | h
  · exact List.mem_of_mem_drop h
  · exact List.mem_of_mem_take h

theorem head?_mem {α} {l : List α} {a : α} (h : l.head? = some a) : a ∈ l := by
  cases l with
  | nil => cases h
  | cons b t =>
    injection h with h
    rw [← h]
    exact List.mem_cons_self b t

theorem copyLoop_ok (picks : List Pick) :
    ∀ (plates : List Plate) (hands : List (List Card)) (idx : Nat)
      (npuds : List Nat) (out : List Plate × List (List Card) × List Nat),
    plates.length = picks.length → hands.length = picks.length →
    copyLoop picks plates hands idx npuds = .ok out →
    out.1.length = picks.length ∧ out.2.1.length = picks.length ∧
      out.2.2.length = npuds.length ∧
      ∀ h2 ∈ out.2.1, ∃ h ∈ hands, h2.length + 1 = h.length ∧
        ∀ x ∈ h2, x ∈ h ∨ x = Card.Chopsticks := by
  induction picks with
  | nil =>
    intro plates hands idx npuds out hp hh hok
    rw [List.length_nil, List.length_eq_zero] at hp hh
    subst hp; subst hh
    have h2 : Except.ok ((([] : List Plate), ([] : List (List Card)), npuds)) =
        Except.ok out := hok
    injection h2 with h3
    rw [← h3]
    refine ⟨rfl, rfl, rfl, ?_⟩
    intro h2 hmem
    cases hmem
  | cons pick picks ih =>
    intro plates hands idx npuds out hp hh hok
    cases plates with
    | nil => rw [List.length_nil, List.length_cons] at hp; cases hp
    | cons plate plates =>
      cases hands with
      | nil => rw [List.length_nil, List.length_cons] at hh; cases hh
      | cons hand hands =>
        rw [List.length_cons, List.length_cons] at hp hh
        rw [copyLoop] at hok
        cases hg : npuds.get? idx with
        | none => simp only [hg, exbind_err] at hok; exact nomatch hok
        | some npud =>
          simp only [hg, expure_bind] at hok
          cases hss : seatStep pick plate hand npud with
          | error e => simp only [hss, exbind_err] at hok; exact nomatch hok
          | ok st =>
            simp only [hss, exbind_ok] at hok
            obtain ⟨p2, h2, np2⟩ := st
            dsimp only at hok
            cases hrec : copyLoop picks plates hands (idx + 1)
                (npuds.set idx np2) with
            | error e => simp only [hrec, exbind_err] at hok; exact nomatch hok
            | ok out2 =>
              simp only [hrec, exbind_ok] at hok
              obtain ⟨plates2, hands2, npuds3⟩ := out2
              dsimp only at hok
              have hok2 : Except.ok ((p2 :: plates2, h2 :: hands2, npuds3)) =
                  Except.ok out := hok
              injection hok2 with hok3
              rw [← hok3]
              obtain ⟨hL1, hL2, hL3, hH⟩ :=
                ih plates hands (idx + 1) (npuds.set idx np2)
                  (plates2, hands2, npuds3) (Nat.succ_injective hp)
                  (Nat.succ_injective hh) hrec
              obtain ⟨hslen, hsmem⟩ := seatStep_ok pick plate hand npud
                (p2, h2, np2) hss
              refine ⟨?_, ?_, ?_, ?_⟩
              · rw [List.length_cons]
                dsimp only at hL1
                rw [hL1, List.length_cons]
              · rw [List.length_cons]
                dsimp only at hL2
                rw [hL2, List.length_cons]
              · dsimp only at hL3
                rw [hL3, List.length_set]
              · intro hx hxmem
                rcases List.mem_cons.mp hxmem with hx1 | hx1
                · subst hx1
                  exact ⟨hand, List.mem_cons_self _ _, hslen, hsmem⟩
                · obtain ⟨h0, h0mem, h0len, h0sub⟩ := hH hx hx1
                  exact ⟨h0, List.mem_cons_of_mem _ h0mem, h0len, h0sub⟩

end Omakase

namespace Omakase

theorem copy_wf {s : MinimalPlayerState} {lh : Nat} {picks : List Pick}
    {s2 : MinimalPlayerState} (hwf : HandsWellFormed s lh)
    (h : s.copy_with_played_cards picks = .ok s2) :
    HandsWellFormed s2 (lh - 1) := by
  obtain ⟨hts, hnp, hpl, hne, hlen, hunk⟩ := hwf
  unfold MinimalPlayerState.copy_with_played_cards at h
  by_cases hg : picks.length ≠ s.hands.length
  · rw [if_pos hg] at h
    exact nomatch h
  · rw [if_neg hg] at h
    push_neg at hg
    cases hcl : copyLoop picks s.plates s.hands 0 s.num_puddings with
    | error e => rw [hcl, exbind_err] at h; exact nomatch h
    | ok out =>
      rw [hcl, exbind_ok] at h
      obtain ⟨plates2, hands2, npuds2⟩ := out
      dsimp only at h
      have h2 : Except.ok
          ({ total_scores := s.total_scores, num_puddings := npuds2,
             plates := plates2, hands := rotate1 hands2 } :
            MinimalPlayerState) = Except.ok s2 := h
      injection h2 with h3
      rw [← h3]
      obtain ⟨hL1, hL2, hL3, hH⟩ := copyLoop_ok picks s.plates s.hands 0
        s.num_puddings (plates2, hands2, npuds2) (hpl.trans hg.symm) hg.symm hcl
      dsimp only at hL1 hL2 hL3 hH
      have hhpos : 0 < s.hands.length := List.length_pos.mpr hne
      refine ⟨?_, ?_, ?_, ?_, ?_, ?_⟩
      · dsimp only
        rw [rotate1_length]
        omega
      · dsimp only
        rw [rotate1_length]
        omega
      · dsimp only
        rw [rotate1_length]
        omega
      · dsimp only
        have : 0 < (rotate1 hands2).length := by rw [rotate1_length]; omega
        exact List.length_pos.mp this
      · intro hx hxmem
        dsimp only at hxmem
        obtain ⟨h0, h0mem, h0len, _⟩ := hH hx (rotate1_mem hxmem)
        have := hlen h0 h0mem
        omega
      · intro hx hxmem hcon
        dsimp only at hxmem
        obtain ⟨h0, h0mem, _, h0sub⟩ := hH hx (rotate1_mem hxmem)
        rcases h0sub Card.Unknown hcon with hin | heq
        · exact hunk h0 h0mem hin
        · exact nomatch heq

end Omakase

namespace Omakase

theorem notErr_solveLoop {e : Err} (env : SolverEnv) (s : MinimalPlayerState)
    (recurse : MinimalPlayerState → Except Err (Pick × Option Result))
    (opts : List Pick) (prod : List (List Pick))
    (he1 : e ≠ .valueError) (he2 : e ≠ .assertionError)
    (hrec : ∀ picks s2, s.copy_with_played_cards picks = .ok s2 →
      NotErr e (recurse s2)) :
    NotErr e (solveLoop env s recurse opts prod) := by
  unfold solveLoop
  refine notErr_bind (notErr_foldlM _ _ _ ?_) (fun best _ => ?_)
  · intro best pick
    refine notErr_bind (notErr_mapM _ _ ?_) (fun brs _ => ?_)
    · intro opt _
      refine notErr_bind
        ((benign_copy_with_played_cards s (pick :: opt)).notErr e he1 he2)
        (fun s2 hs2 => ?_)
      refine notErr_bind (hrec (pick :: opt) s2 hs2) (fun pr _ => ?_)
      obtain ⟨p, r⟩ := pr
      cases r with
      | none => exact notErr_error (Ne.symm he1)
      | some rr => exact notErr_pure e rr
    · by_cases hlen : brs.length = 0
      · rw [if_pos hlen]
        exact notErr_error (Ne.symm he2)
      · rw [if_neg hlen]
        cases hcons : consolidate brs with
        | none => exact notErr_error (Ne.symm he2)
        | some pr =>
          cases best with
          | none => exact notErr_pure e _
          | some bp =>
            obtain ⟨bpick, bres⟩ := bp
            dsimp only
            split
            · exact notErr_pure e _
            · exact notErr_pure e _
  · cases best with
    | none => exact notErr_error (Ne.symm he2)
    | some bp =>
      obtain ⟨bpick, bres⟩ := bp
      exact notErr_pure e _

end Omakase

namespace Omakase

theorem solveRecursive_safe (env : SolverEnv) :
    ∀ (lh fuel : Nat) (s : MinimalPlayerState) (depth : Nat) (e : Err),
      HandsWellFormed s lh → 1 ≤ lh → lh ≤ fuel →
      (e = .fuelOut ∨ (e = .depthAssert ∧ depth + lh ≤ 10)) →
      NotErr e (solveRecursive env fuel s depth) := by
  intro lh
  induction lh with
  | zero => intro fuel s depth e _ h1 _ _; exact absurd h1 (by omega)
  | succ lh ih =>
    intro fuel s depth e hwf _ hfuel hdis
    have he1 : e ≠ .valueError := by
      rcases hdis with rfl | ⟨rfl, _⟩ <;> intro hcon <;> cases hcon
    have he2 : e ≠ .assertionError := by
      rcases hdis with rfl | ⟨rfl, _⟩ <;> intro hcon <;> cases hcon
    cases fuel with
    | zero => exact absurd hfuel (by omega)
    | succ fuel =>
      rw [solveRecursive]
      by_cases hd : depth ≥ 10
      · rw [if_pos hd]
        rcases hdis with rfl | ⟨rfl, hdep⟩
        · exact notErr_error (fun hc => Err.noConfusion hc)
        · exact absurd hd (by omega)
      · rw [if_neg hd]
        cases hh : s.hands.head? with
        | none =>
          simp only [hh, exbind_err]
          exact notErr_error (Ne.symm he1)
        | some hand0 =>
          simp only [hh, expure_bind]
          cases hp : s.plates.head? with
          | none =>
            simp only [hp, exbind_err]
            exact notErr_error (Ne.symm he1)
          | some plate0 =>
            simp only [hp, expure_bind]
            cases hand0 with
            | nil => exact notErr_error (Ne.symm he1)
            | cons c1 hrest =>
              dsimp only
              by_cases hr : hrest = []
              · rw [if_pos hr]
                exact notErr_bind
                  ((benign_play_last_cards s env.pscorer env.sqrtFn
                    true).notErr e he1 he2)
                  (fun r _ => notErr_pure e _)
              · rw [if_neg hr]
                refine notErr_bind
                  ((benign_get_all_picks _ _ _).notErr e he1 he2)
                  (fun opts _ => ?_)
                refine notErr_bind
                  (notErr_mapM _ _
                    (fun hp2 _ => (benign_get_all_picks _ _ _).notErr e he1 he2))
                  (fun others _ => ?_)
                split
                · cases hho : opts.head? with
                  | none =>
                    simp only [hho]
                    exact notErr_error (Ne.symm he2)
                  | some o =>
                    simp only [hho]
                    exact notErr_pure e _
                · refine notErr_solveLoop env s _ opts _ he1 he2 ?_
                  intro picks s2 hok
                  have hwf2 : HandsWellFormed s2 lh := copy_wf hwf hok
                  have h1b : 1 ≤ lh := by
                    have hmem := head?_mem hh
                    have hl1 := hwf.2.2.2.2.1 _ hmem
                    rw [List.length_cons] at hl1
                    have hl2 := List.length_pos.mpr hr
                    omega
                  have hdis2 : e = .fuelOut ∨
                      (e = .depthAssert ∧ (depth + 1) + lh ≤ 10) := by
                    rcases hdis with h | ⟨h, h2⟩
                    · exact Or.inl h
                    · exact Or.inr ⟨h, by omega⟩
                  exact ih fuel s2 (depth + 1) e hwf2 h1b (by omega) hdis2

end Omakase

namespace Omakase

/-- Claim C10, counterexample: the recursion-depth assertion of
`_solve_recursive` is the constant bound `recursion_depth < 10`, not a bound
derived from the initial hand size, so it is not true that on well-formed
states the assertion never fires: a perfectly well-formed two-player state
with 11-card hands (equal-length, non-empty, no unknown cards) drives the
recursion to depth 10 and the assertion fires (`Err.depthAssert`). -/
theorem C10_counterexample :
    HandsWellFormed
      ⟨[0, 0], [0, 0], [{}, {}],
        [Card.Tempura :: List.replicate 10 Card.Sashimi,
          List.replicate 11 Card.Sashimi]⟩ 11 ∧
    solveRecursive
      ⟨fun l => l.map fun _ => (0 : Rat), id, true, .average, false, false⟩
      11
      ⟨[0, 0], [0, 0], [{}, {}],
        [Card.Tempura :: List.replicate 10 Card.Sashimi,
          List.replicate 11 Card.Sashimi]⟩
      0 = .error .depthAssert := by
  constructor
  · unfold HandsWellFormed
    decide
  · rfl

/-- Claim C10: on a well-formed `_MinimalPlayerState` (equal-length lists,
non-empty hands of a common size `lh` with no unknown cards) the recursion
terminates — fuel equal to the hand size is never exhausted, because every
successful `copy_with_played_cards` transition removes a net one card from
every seat's hand (the final conjunct) — and, provided
`recursion_depth + lh ≤ 10`, the hard `recursion_depth < 10` assertion never
fires.  The depth-safety premise is the constant 10 of the code, not the
initial hand size as claimed; `C10_counterexample` shows the assertion does
fire on a well-formed 11-card state. -/
theorem C10_theorem (env : SolverEnv) (s : MinimalPlayerState)
    (lh fuel depth : Nat) (hwf : HandsWellFormed s lh) (h1 : 1 ≤ lh)
    (hfuel : lh ≤ fuel) :
    NotErr .fuelOut (solveRecursive env fuel s depth) ∧
    (depth + lh ≤ 10 → NotErr .depthAssert (solveRecursive env fuel s depth)) ∧
    (∀ picks s2, s.copy_with_played_cards picks = .ok s2 →
      HandsWellFormed s2 (lh - 1) ∧ ∀ h ∈ s2.hands, h.length + 1 = lh) := by
  refine ⟨solveRecursive_safe env lh fuel s depth .fuelOut hwf h1 hfuel
      (Or.inl rfl),
    fun hdep => solveRecursive_safe env lh fuel s depth .depthAssert hwf h1
      hfuel (Or.inr ⟨rfl, hdep⟩),
    fun picks s2 hok => ?_⟩
  have h2 := copy_wf hwf hok
  refine ⟨h2, fun h hh => ?_⟩
  have h3 := h2.2.2.2.2.1 h hh
  omega

/-- Claim C10, witness: the theorem applied to a concrete well-formed
two-player state with 2-card hands, fuel 2, depth 0. -/
theorem C10_witness :
    NotErr .fuelOut
      (solveRecursive
        ⟨fun l => l.map fun _ => (0 : Rat), id, true, .average, false, false⟩
        2
        ⟨[0, 0], [0, 0], [{ unscored_sashimi := 2 }, {}],
          [[Card.Sashimi, Card.Tempura], [Card.Maki3, Card.Dumpling]]⟩
        0) ∧
    ((0 : Nat) + 2 ≤ 10 → NotErr .depthAssert
      (solveRecursive
        ⟨fun l => l.map fun _ => (0 : Rat), id, true, .average, false, false⟩
        2
        ⟨[0, 0], [0, 0], [{ unscored_sashimi := 2 }, {}],
          [[Card.Sashimi, Card.Tempura], [Card.Maki3, Card.Dumpling]]⟩
        0)) ∧
    (∀ picks s2,
      MinimalPlayerState.copy_with_played_cards
        ⟨[0, 0], [0, 0], [{ unscored_sashimi := 2 }, {}],
          [[Card.Sashimi, Card.Tempura], [Card.Maki3, Card.Dumpling]]⟩
        picks = .ok s2 →
      HandsWellFormed s2 (2 - 1) ∧ ∀ h ∈ s2.hands, h.length + 1 = 2) :=
  C10_theorem
    ⟨fun l => l.map fun _ => (0 : Rat), id, true, .average, false, false⟩
    ⟨[0, 0], [0, 0], [{ unscored_sashimi := 2 }, {}],
      [[Card.Sashimi, Card.Tempura], [Card.Maki3, Card.Dumpling]]⟩
    2 2 0 (by unfold HandsWellFormed; decide) (by decide) (by decide)

end Omakase
